import Mathlib

/-!
Verification of the SolKit source-transformation core: the template engine
(`TemplateEngine.processTemplate` / `processFileName` / `getValueFromContext`),
the framework patchers (`NextjsFramework.updateNextConfig`,
`NextjsFramework.updateAppRouterEntryPoint`, `NextjsFramework.updatePagesRouterEntryPoint`,
`ReactFramework.updateEntryPoint`, `VueFramework.updateMainFile`) and the
environment-file generator (`ConfigManager.generateEnvContent` / `createEnvFile`).

File contents are modelled as `List Char`.  JavaScript regular-expression
matching is modelled by explicit scanning functions that reproduce the exact
leftmost-match / lazy / greedy behaviour of each concrete pattern in the
source, and `String.prototype.replace` with a string replacement is modelled
including its `$`-substitution codes.
-/

set_option maxRecDepth 2000

abbrev L := List Char

/-- Characters matched by the JavaScript `\s` class (ASCII part plus the
common Unicode space characters). -/
def isWs (c : Char) : Bool :=
  c = ' ' || c = '\t' || c = '\n' || c = '\r' || c = '\x0b' || c = '\x0c' ||
  c = ' ' || c = ' ' || (' ' ≤ c && c ≤ ' ') ||
  c = ' ' || c = ' ' || c = ' ' || c = ' ' || c = '　' ||
  c = '﻿'

/-- JavaScript line terminators: the characters not matched by `.` without the
`s` flag, and the characters before which `$` matches in multiline mode. -/
def isLineTerm (c : Char) : Bool :=
  c = '\n' || c = '\r' || c = ' ' || c = ' '

def allWs (l : L) : Bool := l.all isWs

/-- `hasPre p l` : does `l` start with `p`? (`String.prototype.startsWith`). -/
def hasPre : L → L → Bool
  | [], _ => true
  | _ :: _, [] => false
  | p :: ps, c :: cs => p = c && hasPre ps cs

theorem hasPre_iff (p l : L) : hasPre p l = true ↔ ∃ r, l = p ++ r := by
  induction p generalizing l with
  | nil => simp [hasPre]
  | cons x xs ih =>
    cases l with
    | nil => simp [hasPre]
    | cons c cs =>
      simp only [hasPre, Bool.and_eq_true, decide_eq_true_eq, ih]
      constructor
      · rintro ⟨rfl, r, rfl⟩; exact ⟨r, rfl⟩
      · rintro ⟨r, h⟩
        rw [List.cons_append] at h
        exact ⟨(List.cons.injEq .. ▸ h).1.symm, r, (List.cons.injEq .. ▸ h).2⟩

theorem hasPre_append (p r : L) : hasPre p (p ++ r) = true :=
  (hasPre_iff p (p ++ r)).2 ⟨r, rfl⟩

/-- First occurrence of `pat` in `h`, returned as the split
`h = before ++ pat ++ after` (`String.prototype.indexOf`). -/
def findFirst (pat : L) : L → Option (L × L)
  | [] => if pat = [] then some ([], []) else none
  | c :: t =>
    if hasPre pat (c :: t) then some ([], (c :: t).drop pat.length)
    else (findFirst pat t).map (fun p => (c :: p.1, p.2))

theorem findFirst_sound (pat : L) : ∀ h a b : L,
    findFirst pat h = some (a, b) → h = a ++ pat ++ b := by
  intro h
  induction h with
  | nil =>
    intro a b hf
    by_cases hp : pat = []
    · subst hp
      have he : findFirst ([] : L) ([] : L) = some ([], []) := rfl
      rw [he, Option.some.injEq, Prod.mk.injEq] at hf
      obtain ⟨ha, hb⟩ := hf
      rw [← ha, ← hb]
      rfl
    · simp [findFirst, hp] at hf
  | cons c t ih =>
    intro a b hf
    by_cases hp : hasPre pat (c :: t) = true
    · rw [findFirst, if_pos hp] at hf
      obtain ⟨r, hr⟩ := (hasPre_iff pat (c :: t)).1 hp
      simp only [Option.some.injEq, Prod.mk.injEq] at hf
      obtain ⟨ha, hb⟩ := hf
      subst ha
      rw [hr] at hb
      simp only [List.drop_left] at hb
      subst hb
      simpa using hr
    · rw [findFirst, if_neg hp] at hf
      cases hm : findFirst pat t with
      | none => rw [hm] at hf; simp at hf
      | some p =>
        rw [hm] at hf
        simp only [Option.map_some', Option.some.injEq, Prod.mk.injEq] at hf
        obtain ⟨ha, hb⟩ := hf
        subst ha; subst hb
        have := ih p.1 p.2 (by rw [hm])
        simp [this]

theorem findFirst_none (pat : L) : ∀ h : L,
    findFirst pat h = none → ∀ a b : L, h ≠ a ++ pat ++ b := by
  intro h
  induction h with
  | nil =>
    intro hf a b
    by_cases hp : pat = []
    · simp [findFirst, hp] at hf
    · intro hEq
      have h' := hEq.symm
      simp only [List.append_eq_nil] at h'
      exact hp h'.1.2
  | cons c t ih =>
    intro hf a b
    rw [findFirst] at hf
    by_cases hp : hasPre pat (c :: t) = true
    · rw [if_pos hp] at hf; simp at hf
    · rw [if_neg hp] at hf
      have hm : findFirst pat t = none := by
        cases hm' : findFirst pat t with
        | none => rfl
        | some p => rw [hm'] at hf; simp at hf
      intro hEq
      cases a with
      | nil =>
        exact hp (by rw [hEq]; simpa using hasPre_append pat b)
      | cons x xs =>
        simp only [List.cons_append] at hEq
        injection hEq with h1 h2
        exact ih hm xs b (by simpa using h2)

/-- Whether `pat` occurs in `h` (`String.prototype.includes`). -/
def occursIn (pat h : L) : Bool := (findFirst pat h).isSome

theorem occursIn_iff (pat h : L) :
    occursIn pat h = true ↔ ∃ a b, h = a ++ pat ++ b := by
  constructor
  · intro hc
    unfold occursIn at hc
    cases hf : findFirst pat h with
    | none => rw [hf] at hc; simp at hc
    | some p => exact ⟨p.1, p.2, findFirst_sound pat h p.1 p.2 (by rw [hf])⟩
  · rintro ⟨a, b, rfl⟩
    unfold occursIn
    cases hf : findFirst pat (a ++ pat ++ b) with
    | none => exact absurd rfl (findFirst_none pat _ hf a b)
    | some p => rfl

theorem occursIn_self_append (pat a b : L) : occursIn pat (a ++ pat ++ b) = true :=
  (occursIn_iff pat _).2 ⟨a, b, rfl⟩

theorem occursIn_mono (pat x a b : L) (hx : occursIn pat x = true) :
    occursIn pat (a ++ x ++ b) = true := by
  obtain ⟨u, v, rfl⟩ := (occursIn_iff pat x).1 hx
  exact (occursIn_iff pat _).2 ⟨a ++ u, v ++ b, by simp⟩

theorem occursIn_consMono (pat : L) (c : Char) (z : L) (hz : occursIn pat z = true) :
    occursIn pat (c :: z) = true := by
  obtain ⟨a, b, rfl⟩ := (occursIn_iff pat z).1 hz
  exact (occursIn_iff pat _).2 ⟨c :: a, b, rfl⟩

theorem occursIn_appendLeft (pat w z : L) (hz : occursIn pat z = true) :
    occursIn pat (w ++ z) = true := by
  induction w with
  | nil => exact hz
  | cons c t ih => exact occursIn_consMono pat c (t ++ z) ih

theorem occursIn_appendRight (pat z w : L) (hz : occursIn pat z = true) :
    occursIn pat (z ++ w) = true := by
  obtain ⟨a, b, rfl⟩ := (occursIn_iff pat z).1 hz
  exact (occursIn_iff pat _).2 ⟨a, b ++ w, by simp⟩

/-- Last occurrence of `pat` in `h` (`String.prototype.lastIndexOf`), as the
split `h = before ++ pat ++ after`. -/
def findLast (pat : L) : L → Option (L × L)
  | [] => if pat = [] then some ([], []) else none
  | c :: t =>
    match findLast pat t with
    | some p => some (c :: p.1, p.2)
    | none =>
      if hasPre pat (c :: t) then some ([], (c :: t).drop pat.length) else none

theorem findLast_sound (pat : L) : ∀ h a b : L,
    findLast pat h = some (a, b) → h = a ++ pat ++ b := by
  intro h
  induction h with
  | nil =>
    intro a b hf
    by_cases hp : pat = []
    · subst hp
      have he : findLast ([] : L) ([] : L) = some ([], []) := rfl
      rw [he, Option.some.injEq, Prod.mk.injEq] at hf
      obtain ⟨ha, hb⟩ := hf
      rw [← ha, ← hb]
      rfl
    · simp [findLast, hp] at hf
  | cons c t ih =>
    intro a b hf
    rw [findLast] at hf
    cases hm : findLast pat t with
    | some p =>
      rw [hm] at hf
      simp only [Option.some.injEq, Prod.mk.injEq] at hf
      obtain ⟨ha, hb⟩ := hf
      subst ha; subst hb
      have := ih p.1 p.2 (by rw [hm])
      simp [this]
    | none =>
      rw [hm] at hf
      by_cases hp : hasPre pat (c :: t) = true
      · rw [if_pos hp] at hf
        obtain ⟨r, hr⟩ := (hasPre_iff pat (c :: t)).1 hp
        simp only [Option.some.injEq, Prod.mk.injEq] at hf
        obtain ⟨ha, hb⟩ := hf
        subst ha
        rw [hr] at hb
        simp only [List.drop_left] at hb
        subst hb
        simpa using hr
      · rw [if_neg hp] at hf
        simp at hf

def noDollar (l : L) : Bool := l.all (fun c => c ≠ '$')

def headOkDollar (l : L) : Bool :=
  match l with
  | [] => false
  | c :: _ => !(c = '&' || c = '\x60' || c = '\x27')

/-- The two-character `$`-code dispatch of `GetSubstitution`: what `$c2`
expands to when the pattern is a string (no capture groups). -/
def dollarCode (pat pre post : L) (c2 : Char) : L :=
  if c2 = '$' then ['$']
  else if c2 = '&' then pat
  else if c2 = '\x60' then pre
  else if c2 = '\x27' then post
  else ['$', c2]

/-- The `GetSubstitution` processing that JavaScript applies to a string
replacement argument of `String.prototype.replace` when the pattern is a
string (no capture groups): `$$`, `$&`, `` $` `` and `$'` are substitution
codes, everything else is literal. -/
def dollarSub (pat pre post : L) : L → L
  | [] => []
  | [c] => [c]
  | c :: c2 :: rest2 =>
    if c = '$' then dollarCode pat pre post c2 ++ dollarSub pat pre post rest2
    else c :: dollarSub pat pre post (c2 :: rest2)

theorem dsub_front (pat pre post : L) : ∀ m y : L, noDollar m = true →
    dollarSub pat pre post (m ++ y) = m ++ dollarSub pat pre post y
  | [], y => fun _ => rfl
  | [c], y => by
    intro hnd
    simp only [noDollar, List.all_cons, List.all_nil, Bool.and_true,
      decide_eq_true_eq] at hnd
    cases y with
    | nil => simp [dollarSub]
    | cons y1 yt =>
      rw [List.singleton_append, dollarSub, if_neg hnd]
      rfl
  | c1 :: c2 :: mt, y => by
    intro hnd
    simp only [noDollar, List.all_cons, Bool.and_eq_true, decide_eq_true_eq] at hnd
    have he : ((c1 :: c2 :: mt) ++ y : L) = c1 :: c2 :: (mt ++ y) := by simp
    rw [he, dollarSub, if_neg hnd.1]
    have := dsub_front pat pre post (c2 :: mt) y
      (by simp only [noDollar, List.all_cons, Bool.and_eq_true, decide_eq_true_eq]
          exact ⟨hnd.2.1, hnd.2.2⟩)
    rw [List.cons_append] at this
    rw [this]
    rfl

theorem dsub_keeps (pat pre post m : L) (hnd : noDollar m = true)
    (hho : headOkDollar m = true) :
    ∀ x y : L, occursIn m (dollarSub pat pre post (x ++ m ++ y)) = true
  | [], y => by
    rw [List.nil_append, dsub_front pat pre post m y hnd]
    exact occursIn_self_append m [] _
  | [c], y => by
    by_cases hc : c = '$'
    · subst hc
      cases m with
      | nil => simp [headOkDollar] at hho
      | cons mh mt =>
        simp only [noDollar, List.all_cons, Bool.and_eq_true, decide_eq_true_eq] at hnd
        simp only [headOkDollar, Bool.not_eq_true', Bool.or_eq_false_iff,
          decide_eq_false_iff_not] at hho
        have he : (['$'] ++ (mh :: mt) ++ y : L) = '$' :: mh :: (mt ++ y) := by simp
        rw [he, dollarSub, if_pos rfl]
        rw [dollarCode, if_neg hnd.1, if_neg hho.1.1, if_neg hho.1.2, if_neg hho.2]
        rw [dsub_front pat pre post mt y hnd.2]
        exact (occursIn_iff _ _).2 ⟨['$'], dollarSub pat pre post y, by simp⟩
    · cases m with
      | nil => simp [headOkDollar] at hho
      | cons mh mt =>
        have he : ([c] ++ (mh :: mt) ++ y : L) = c :: mh :: (mt ++ y) := by simp
        rw [he, dollarSub, if_neg hc]
        have := dsub_keeps pat pre post (mh :: mt) hnd hho [] y
        rw [List.nil_append] at this
        have he2 : ((mh :: mt) ++ y : L) = mh :: (mt ++ y) := by simp
        rw [he2] at this
        exact occursIn_consMono _ c _ this
  | c :: c2 :: x', y => by
    have he : ((c :: c2 :: x') ++ m ++ y : L) = c :: c2 :: (x' ++ m ++ y) := by simp
    have ihx := dsub_keeps pat pre post m hnd hho x' y
    by_cases hc : c = '$'
    · subst hc
      rw [he, dollarSub, if_pos rfl]
      exact occursIn_appendLeft m _ _ ihx
    · rw [he, dollarSub, if_neg hc]
      have ihx2 := dsub_keeps pat pre post m hnd hho (c2 :: x') y
      have he2 : ((c2 :: x') ++ m ++ y : L) = c2 :: (x' ++ m ++ y) := by simp
      rw [he2] at ihx2
      exact occursIn_consMono m c _ ihx2

/-- `String.prototype.replace` with string pattern and string replacement:
replace the first occurrence of `pat` in `h` by the `$`-processed `repl`;
if `pat` does not occur, return `h` unchanged. -/
def jsReplaceStr (h pat repl : L) : L :=
  match findFirst pat h with
  | none => h
  | some (a, b) => a ++ dollarSub pat a b repl ++ b

theorem jsReplaceStr_cases (h pat repl : L) :
    jsReplaceStr h pat repl = h ∨
    ∃ a b, h = a ++ pat ++ b ∧ jsReplaceStr h pat repl = a ++ dollarSub pat a b repl ++ b := by
  unfold jsReplaceStr
  cases hf : findFirst pat h with
  | none => exact Or.inl rfl
  | some p =>
    exact Or.inr ⟨p.1, p.2, findFirst_sound pat h p.1 p.2 (by rw [hf]), rfl⟩

theorem jsReplaceStr_keeps (h pat repl m : L) (hnd : noDollar m = true)
    (hho : headOkDollar m = true) (hh : occursIn m h = true)
    (hr : occursIn m repl = true) :
    occursIn m (jsReplaceStr h pat repl) = true := by
  rcases jsReplaceStr_cases h pat repl with hcase | ⟨a, b, _, hcase⟩
  · rw [hcase]; exact hh
  · rw [hcase]
    obtain ⟨x, y, hxy⟩ := (occursIn_iff m repl).1 hr
    have := dsub_keeps pat a b m hnd hho x y
    rw [← hxy] at this
    exact occursIn_appendRight _ _ _ (occursIn_appendLeft _ _ _ this)

def strL (s : String) : L := s.data

def dropWs (l : L) : L := l.dropWhile isWs

def takeWs (l : L) : L := l.takeWhile isWs

/-- `String.prototype.trim`. -/
def jsTrim (l : L) : L := ((l.dropWhile isWs).reverse.dropWhile isWs).reverse

/-- `String.prototype.endsWith`. -/
def hasSuf (s l : L) : Bool := hasPre s.reverse l.reverse

/-- JavaScript values as far as the template context is concerned:
`null`, booleans, numbers, strings and plain objects.  A missing property
(JavaScript `undefined`) is modelled as `Option.none` at use sites. -/
inductive JSValue where
  | vNull : JSValue
  | vBool : Bool → JSValue
  | vNum : Int → JSValue
  | vStr : L → JSValue
  | vObj : List (L × JSValue) → JSValue

def lookupField : List (L × JSValue) → L → Option JSValue
  | [], _ => none
  | (k, x) :: rest, key => if k = key then some x else lookupField rest key

/-- Property access `value[part]`: defined on objects, `undefined` (`none`)
on primitives. -/
def getProp (v : JSValue) (key : L) : Option JSValue :=
  match v with
  | JSValue.vObj fields => lookupField fields key
  | _ => none

/-- JavaScript `String(value)` on the values of the model. -/
def jsToStr : JSValue → L
  | JSValue.vNull => strL "null"
  | JSValue.vBool true => strL "true"
  | JSValue.vBool false => strL "false"
  | JSValue.vNum n => (toString n).data
  | JSValue.vStr s => s
  | JSValue.vObj _ => strL "[object Object]"

/-- `String.prototype.split(".")`, with structural fuel (the fuel is always
sufficient since every step consumes at least one character). -/
def splitOnDotGo : Nat → L → List L
  | 0, l => [l]
  | fuel + 1, l =>
    match findFirst ['.'] l with
    | none => [l]
    | some (a, b) => a :: splitOnDotGo fuel b

def splitOnDot (l : L) : List L := splitOnDotGo (l.length + 1) l

/-- The loop of `TemplateEngine.getValueFromContext`: walk the dotted path,
returning `undefined` (`none`) as soon as the current value is `undefined`
or `null` before a segment is consumed; after the last segment, stringify
unless the value is `undefined`. -/
def gvcLoop : Option JSValue → List L → Option L
  | cur, [] =>
    match cur with
    | none => none
    | some v => some (jsToStr v)
  | cur, p :: ps =>
    match cur with
    | none => none
    | some JSValue.vNull => none
    | some v => gvcLoop (getProp v p) ps

/-- `TemplateEngine.getValueFromContext(path, context)`. -/
def getValueFromContext (path : L) (context : JSValue) : Option L :=
  gvcLoop (some context) (splitOnDot path)

/-- The replacement callback of `TemplateEngine.processTemplate`:
`(match, placeholder) => { const trimmed = placeholder.trim(); const value =
getValueFromContext(trimmed, context); return value !== undefined ? value :
match; }`. -/
def tmplCallbackT (context : JSValue) (m placeholder : L) : L :=
  match getValueFromContext (jsTrim placeholder) context with
  | some v => v
  | none => m

/-- The global-replace scan of `/\{\{(.*?)\}\}/g`: repeatedly take the
leftmost `{{`, pair it lazily with the nearest following `}}`, feed the
match to the callback, and continue after the match.  Structural fuel (every
step consumes at least four characters, so the fuel is always sufficient net
of the trivial empty tail). -/
def tmplReplaceGo (cb : L → L → L) : Nat → L → L
  | 0, content => content
  | fuel + 1, content =>
    match findFirst ['\x7b', '\x7b'] content with
    | none => content
    | some (pre, after) =>
      match findFirst ['\x7d', '\x7d'] after with
      | none => content
      | some (inner, post) =>
        pre ++ cb ('\x7b' :: '\x7b' :: (inner ++ ['\x7d', '\x7d'])) inner
          ++ tmplReplaceGo cb fuel post

/-- `TemplateEngine.processTemplate(templateContent, context)`:
`templateContent.replace(/\{\{(.*?)\}\}/g, callback)`. -/
def processTemplate (templateContent : L) (context : JSValue) : L :=
  tmplReplaceGo (tmplCallbackT context) (templateContent.length + 1) templateContent

/-- The replacement callback of `TemplateEngine.processFileName` (textually
identical to the one in `processTemplate`). -/
def tmplCallbackF (context : JSValue) (m placeholder : L) : L :=
  match getValueFromContext (jsTrim placeholder) context with
  | some v => v
  | none => m

/-- `TemplateEngine.processFileName(fileName, context)`: same
`fileName.replace(/\{\{(.*?)\}\}/g, callback)` as `processTemplate`, with
its own (textually identical) callback. -/
def processFileName (fileName : L) (context : JSValue) : L :=
  tmplReplaceGo (tmplCallbackF context) (fileName.length + 1) fileName

theorem occursIn_false_tail (pat : L) (c : Char) (t : L)
    (h : occursIn pat (c :: t) = false) : occursIn pat t = false := by
  by_contra hc
  rw [occursIn_consMono pat c t (by revert hc; cases occursIn pat t <;> simp)] at h
  exact absurd h (by simp)

/-- Does the list avoid ending in `}` (so that appending `}}` cannot create
an earlier `}}` occurrence across the boundary)? -/
def lastNotCloseBrace (l : L) : Bool :=
  match l.getLast? with
  | some c => !(c = '\x7d')
  | none => true

theorem findFirst_openBraces (rest : L) :
    findFirst ['\x7b', '\x7b'] ('\x7b' :: '\x7b' :: rest) = some ([], rest) := by
  simp [findFirst, hasPre]

theorem findFirst_closeBraces : ∀ inner : L,
    occursIn ['\x7d', '\x7d'] inner = false →
    lastNotCloseBrace inner = true →
    findFirst ['\x7d', '\x7d'] (inner ++ ['\x7d', '\x7d']) = some (inner, []) := by
  intro inner
  induction inner with
  | nil => intro _ _; simp [findFirst, hasPre]
  | cons c t ih =>
    intro hocc hlast
    have hnp : hasPre ['\x7d', '\x7d'] (c :: (t ++ ['\x7d', '\x7d'])) = false := by
      by_contra hcon
      have hp' : hasPre ['\x7d', '\x7d'] (c :: (t ++ ['\x7d', '\x7d'])) = true := by
        revert hcon
        cases hasPre ['\x7d', '\x7d'] (c :: (t ++ ['\x7d', '\x7d'])) <;> simp
      obtain ⟨r, hr⟩ := (hasPre_iff _ _).1 hp'
      rw [show (['\x7d', '\x7d'] ++ r : L) = '\x7d' :: '\x7d' :: r by rfl] at hr
      injection hr with h1 h2
      subst h1
      cases t with
      | nil => simp [lastNotCloseBrace] at hlast
      | cons d t' =>
        rw [List.cons_append] at h2
        injection h2 with h3 h4
        subst h3
        rw [show occursIn ['\x7d', '\x7d'] ('\x7d' :: '\x7d' :: t') = true from
          (occursIn_iff _ _).2 ⟨[], t', rfl⟩] at hocc
        exact absurd hocc (by simp)
    rw [show ((c :: t) ++ ['\x7d', '\x7d'] : L) = c :: (t ++ ['\x7d', '\x7d']) by simp]
    rw [findFirst, if_neg (by simp [hnp])]
    have ht : occursIn ['\x7d', '\x7d'] t = false := occursIn_false_tail _ c t hocc
    have hlt : lastNotCloseBrace t = true := by
      cases t with
      | nil => rfl
      | cons d t' =>
        simp only [lastNotCloseBrace] at hlast ⊢
        rwa [List.getLast?_cons_cons] at hlast
    rw [ih ht hlt]
    rfl

theorem tmplReplaceGo_nil (cb : L → L → L) : ∀ f : Nat, tmplReplaceGo cb f [] = [] := by
  intro f
  cases f with
  | zero => rfl
  | succ f' => simp [tmplReplaceGo, findFirst]

/-- Claim C3.  Unresolved-placeholder preservation: whenever the dotted-path
lookup of the (trimmed) placeholder body yields `undefined` — in particular
when a segment of the path hits `undefined` or `null` mid-walk — the whole
placeholder text `{{...}}` is kept verbatim in the output; concretely,
`processTemplate("{{a.b.c}}", {a: {}})` returns `"{{a.b.c}}"`. -/
theorem claim_C3_unresolved_placeholder_preserved :
    (∀ (context : JSValue) (inner : L),
      occursIn ['\x7d', '\x7d'] inner = false →
      lastNotCloseBrace inner = true →
      getValueFromContext (jsTrim inner) context = none →
      processTemplate ('\x7b' :: '\x7b' :: (inner ++ ['\x7d', '\x7d'])) context
        = '\x7b' :: '\x7b' :: (inner ++ ['\x7d', '\x7d']))
    ∧ processTemplate (strL "\x7b\x7ba.b.c\x7d\x7d")
        (JSValue.vObj [(strL "a", JSValue.vObj [])])
        = strL "\x7b\x7ba.b.c\x7d\x7d" := by
  constructor
  · intro context inner hocc hlast hval
    unfold processTemplate
    rw [show ('\x7b' :: '\x7b' :: (inner ++ ['\x7d', '\x7d'])).length + 1
        = (inner.length + 4) + 1 by simp [List.length_append] <;> omega]
    rw [tmplReplaceGo, findFirst_openBraces]
    dsimp only
    rw [findFirst_closeBraces inner hocc hlast]
    dsimp only
    rw [tmplReplaceGo_nil]
    unfold tmplCallbackT
    rw [hval]
    simp
  · decide

/-- Witness for claim C3: the general preservation statement applied at the
concrete placeholder `{{a.b.c}}` over the context `{a: {}}`. -/
theorem claim_C3_witness :
    processTemplate ('\x7b' :: '\x7b' :: (strL "a.b.c" ++ ['\x7d', '\x7d']))
      (JSValue.vObj [(strL "a", JSValue.vObj [])])
      = '\x7b' :: '\x7b' :: (strL "a.b.c" ++ ['\x7d', '\x7d']) :=
  claim_C3_unresolved_placeholder_preserved.1
    (JSValue.vObj [(strL "a", JSValue.vObj [])]) (strL "a.b.c")
    (by decide) (by decide) (by decide)

/-- Claim C9.  `processFileName` and `processTemplate` are extensionally
equal: both are `content.replace(TEMPLATE_PLACEHOLDER_REGEX, cb)` with
textually identical callbacks, so file contents and file names are rendered
by the same substitution function. -/
theorem claim_C9_processFileName_eq_processTemplate :
    ∀ (s : L) (context : JSValue), processFileName s context = processTemplate s context :=
  fun _ _ => rfl

/-- Claim C10.  When the walk reaches the final segment with value `null`,
`getValueFromContext` stringifies it (`String(null) = "null"`), so the
placeholder is replaced by the string `null`; `null` met before the final
segment yields `undefined` and hence preservation.  Concretely over the
context `{a: {b: null}}`: `{{a.b}}` renders to `null` while `{{a.b.c}}` is
preserved. -/
theorem claim_C10_final_null_stringified :
    gvcLoop (some JSValue.vNull) [] = some (strL "null")
    ∧ (∀ (p : L) (ps : List L), gvcLoop (some JSValue.vNull) (p :: ps) = none)
    ∧ processTemplate (strL "\x7b\x7ba.b\x7d\x7d")
        (JSValue.vObj [(strL "a", JSValue.vObj [(strL "b", JSValue.vNull)])])
        = strL "null"
    ∧ processTemplate (strL "\x7b\x7ba.b.c\x7d\x7d")
        (JSValue.vObj [(strL "a", JSValue.vObj [(strL "b", JSValue.vNull)])])
        = strL "\x7b\x7ba.b.c\x7d\x7d" :=
  ⟨rfl, fun _ _ => rfl, by decide, by decide⟩

/-- The `network` field of the `SolanaConfig` interface:
`"mainnet-beta" | "testnet" | "devnet" | "localnet"`. -/
inductive SolNetwork where
  | mainnetBeta : SolNetwork
  | testnet : SolNetwork
  | devnet : SolNetwork
  | localnet : SolNetwork

/-- The string value of the network union member. -/
def networkName : SolNetwork → L
  | SolNetwork.mainnetBeta => strL "mainnet-beta"
  | SolNetwork.testnet => strL "testnet"
  | SolNetwork.devnet => strL "devnet"
  | SolNetwork.localnet => strL "localnet"

/-- The `networkUrls` lookup object of `ConfigManager.generateEnvContent`. -/
def networkUrls : SolNetwork → L
  | SolNetwork.mainnetBeta => strL "https://api.mainnet-beta.solana.com"
  | SolNetwork.testnet => strL "https://api.testnet.solana.com"
  | SolNetwork.devnet => strL "https://api.devnet.solana.com"
  | SolNetwork.localnet => strL "http://127.0.0.1:8899"

/-- The `SolanaConfig` interface (optional fields modelled with `Option`;
the optional boolean `useAppKit` is modelled as `Bool` since the code only
ever tests its truthiness, under which `undefined` and `false` agree). -/
structure SolanaConfig where
  network : SolNetwork
  wallets : List L
  featTransactions : Bool
  featTokens : Bool
  featNfts : Bool
  useAppKit : Bool
  projectId : Option L

/-- `ConfigManager.generateEnvContent(config)`. -/
def generateEnvContent (config : SolanaConfig) : L :=
  strL "# Solana Configuration\nNEXT_PUBLIC_SOLANA_NETWORK="
    ++ networkName config.network
    ++ strL "\nNEXT_PUBLIC_SOLANA_RPC_URL="
    ++ networkUrls config.network
    ++ strL "\n\n# For server-side operations (optional)\nSOLANA_PRIVATE_KEY=YOUR_PRIVATE_KEY_HERE\n\n# Note: Never commit private keys to source control\n# Use this file as a template and create a .env.local file with your actual keys\n"
    ++ (if config.useAppKit then
          strL "\n# Reown AppKit Configuration\nNEXT_PUBLIC_PROJECT_ID="
            ++ config.projectId.getD [] ++ strL "\n"
        else [])

/-- The existing-file branch of `ConfigManager.createEnvFile`: when
`.env.local` already exists, only the AppKit project-id key is ever added,
and only by appending; the file is otherwise left as it is. -/
def createEnvFileExisting (config : SolanaConfig) (currentEnv : L) : L :=
  if config.useAppKit then
    if occursIn (strL "NEXT_PUBLIC_PROJECT_ID=") currentEnv then currentEnv
    else
      currentEnv
        ++ (strL "\n# Reown AppKit Configuration\nNEXT_PUBLIC_PROJECT_ID="
            ++ config.projectId.getD [] ++ strL "\n")
  else currentEnv

/-- Claim C7.  The env-content generator uses the fixed four-entry
network-to-URL table, and any configuration whose network is `devnet`
produces content containing the exact line
`NEXT_PUBLIC_SOLANA_RPC_URL=https://api.devnet.solana.com`. -/
theorem claim_C7_devnet_rpc_url_line :
    ∀ config : SolanaConfig, config.network = SolNetwork.devnet →
      occursIn (strL "\nNEXT_PUBLIC_SOLANA_RPC_URL=https://api.devnet.solana.com\n")
        (generateEnvContent config) = true := by
  intro config h
  unfold generateEnvContent
  rw [h]
  apply (occursIn_iff _ _).2
  refine ⟨strL "# Solana Configuration\nNEXT_PUBLIC_SOLANA_NETWORK=devnet",
    strL "\n# For server-side operations (optional)\nSOLANA_PRIVATE_KEY=YOUR_PRIVATE_KEY_HERE\n\n# Note: Never commit private keys to source control\n# Use this file as a template and create a .env.local file with your actual keys\n"
      ++ (if config.useAppKit then
            strL "\n# Reown AppKit Configuration\nNEXT_PUBLIC_PROJECT_ID="
              ++ config.projectId.getD [] ++ strL "\n"
          else []), ?_⟩
  rw [show networkName SolNetwork.devnet = strL "devnet" from rfl,
    show networkUrls SolNetwork.devnet = strL "https://api.devnet.solana.com" from rfl]
  simp only [strL, ← List.append_assoc]
  congr 1

/-- Witness for claim C7: the devnet line is present for the concrete
configuration `{"network":"devnet","wallets":["phantom"]}`. -/
theorem claim_C7_witness :
    occursIn (strL "\nNEXT_PUBLIC_SOLANA_RPC_URL=https://api.devnet.solana.com\n")
      (generateEnvContent
        { network := SolNetwork.devnet, wallets := [strL "phantom"],
          featTransactions := true, featTokens := false, featNfts := false,
          useAppKit := false, projectId := none }) = true :=
  claim_C7_devnet_rpc_url_line _ rfl

/-- Claim C8 counterexample: re-running env generation on an existing
`.env.local` that lacks the generated key `NEXT_PUBLIC_SOLANA_RPC_URL` does
NOT append it (the code only ever appends the AppKit project id), refuting
"appends every key of the generated set that is missing". -/
theorem claim_C8_counterexample :
    occursIn (strL "NEXT_PUBLIC_SOLANA_RPC_URL=")
      (generateEnvContent
        { network := SolNetwork.devnet, wallets := [strL "phantom"],
          featTransactions := true, featTokens := false, featNfts := false,
          useAppKit := true, projectId := some (strL "pid123") }) = true
    ∧ occursIn (strL "NEXT_PUBLIC_SOLANA_RPC_URL=") (strL "FOO=1\n") = false
    ∧ occursIn (strL "NEXT_PUBLIC_SOLANA_RPC_URL=")
        (createEnvFileExisting
          { network := SolNetwork.devnet, wallets := [strL "phantom"],
            featTransactions := true, featTokens := false, featNfts := false,
            useAppKit := true, projectId := some (strL "pid123") }
          (strL "FOO=1\n")) = false := by
  refine ⟨by decide, by decide, ?_⟩
  decide

/-- Claim C8 as amended.  Re-running environment-file generation on a
pre-existing `.env.local` never modifies existing content (the result is
always the existing content plus an appended suffix); when `useAppKit` is
set and `NEXT_PUBLIC_PROJECT_ID=` is absent, exactly the AppKit project-id
block is appended; otherwise the file is left byte-identical.  Keys of the
generated set other than the project id are never appended. -/
theorem claim_C8_amended_append_only :
    (∀ (config : SolanaConfig) (currentEnv : L),
      ∃ suffix : L, createEnvFileExisting config currentEnv = currentEnv ++ suffix)
    ∧ (∀ (config : SolanaConfig) (currentEnv : L),
        config.useAppKit = true →
        occursIn (strL "NEXT_PUBLIC_PROJECT_ID=") currentEnv = false →
        createEnvFileExisting config currentEnv
          = currentEnv ++ (strL "\n# Reown AppKit Configuration\nNEXT_PUBLIC_PROJECT_ID="
              ++ config.projectId.getD [] ++ strL "\n"))
    ∧ (∀ (config : SolanaConfig) (currentEnv : L),
        config.useAppKit = false ∨ occursIn (strL "NEXT_PUBLIC_PROJECT_ID=") currentEnv = true →
        createEnvFileExisting config currentEnv = currentEnv) := by
  refine ⟨fun config currentEnv => ?_, fun config currentEnv hA hK => ?_,
    fun config currentEnv hOr => ?_⟩
  · unfold createEnvFileExisting
    by_cases hA : config.useAppKit = true
    · rw [if_pos hA]
      by_cases hK : occursIn (strL "NEXT_PUBLIC_PROJECT_ID=") currentEnv = true
      · rw [if_pos hK]; exact ⟨[], by simp⟩
      · rw [if_neg hK]; exact ⟨_, rfl⟩
    · rw [if_neg hA]; exact ⟨[], by simp⟩
  · unfold createEnvFileExisting
    rw [if_pos hA, if_neg (by rw [hK]; simp)]
  · unfold createEnvFileExisting
    rcases hOr with hA | hK
    · rw [if_neg (by rw [hA]; simp)]
    · by_cases hA : config.useAppKit = true
      · rw [if_pos hA, if_pos hK]
      · rw [if_neg hA]

/-- Witness for claim C8 (amended): the append-only equations applied to a
concrete config and pre-existing env file. -/
theorem claim_C8_amended_witness :
    createEnvFileExisting
      { network := SolNetwork.devnet, wallets := [strL "phantom"],
        featTransactions := true, featTokens := false, featNfts := false,
        useAppKit := true, projectId := some (strL "pid123") }
      (strL "FOO=1\n")
    = strL "FOO=1\n" ++ (strL "\n# Reown AppKit Configuration\nNEXT_PUBLIC_PROJECT_ID="
        ++ strL "pid123" ++ strL "\n") :=
  claim_C8_amended_append_only.2.1 _ (strL "FOO=1\n") rfl (by decide)

/-- Leftmost-match driver: try the deterministic pattern attempt `att` at
every start position from the left and return the prefix before the first
success together with the attempt's result. -/
def scanFirst {α : Type} (att : L → Option α) : L → Option (L × α)
  | [] => (att []).map (fun a => ([], a))
  | c :: t =>
    match att (c :: t) with
    | some a => some ([], a)
    | none => (scanFirst att t).map (fun p => (c :: p.1, p.2))

theorem scanFirst_sound {α : Type} (att : L → Option α) : ∀ (h pre : L) (a : α),
    scanFirst att h = some (pre, a) → ∃ suf, h = pre ++ suf ∧ att suf = some a := by
  intro h
  induction h with
  | nil =>
    intro pre a hs
    cases ha : att [] with
    | none => rw [scanFirst, ha] at hs; simp at hs
    | some v =>
      rw [scanFirst, ha] at hs
      simp only [Option.map_some', Option.some.injEq, Prod.mk.injEq] at hs
      obtain ⟨h1, h2⟩ := hs
      subst h1; subst h2
      exact ⟨[], rfl, ha⟩
  | cons c t ih =>
    intro pre a hs
    rw [scanFirst] at hs
    cases ha : att (c :: t) with
    | some v =>
      rw [ha] at hs
      simp only [Option.some.injEq, Prod.mk.injEq] at hs
      obtain ⟨h1, h2⟩ := hs
      subst h1; subst h2
      exact ⟨c :: t, rfl, ha⟩
    | none =>
      rw [ha] at hs
      cases hm : scanFirst att t with
      | none => rw [hm] at hs; simp at hs
      | some p =>
        rw [hm] at hs
        simp only [Option.map_some', Option.some.injEq, Prod.mk.injEq] at hs
        obtain ⟨h1, h2⟩ := hs
        subst h1; subst h2
        obtain ⟨suf, hsuf, hatt⟩ := ih p.1 p.2 (by rw [hm])
        exact ⟨suf, by simp [hsuf], hatt⟩

theorem scanFirst_none_iff {α : Type} (att : L → Option α) : ∀ h : L,
    scanFirst att h = none ↔ ∀ x y : L, h = x ++ y → att y = none := by
  intro h
  induction h with
  | nil =>
    constructor
    · intro hs x y hxy
      have h' := hxy.symm
      simp only [List.append_eq_nil] at h'
      obtain ⟨hx, hy⟩ := h'
      subst hx; subst hy
      cases ha : att [] with
      | none => rfl
      | some v => rw [scanFirst, ha] at hs; simp at hs
    · intro hall
      rw [scanFirst, hall [] [] rfl]
      rfl
  | cons c t ih =>
    constructor
    · intro hs x y hxy
      rw [scanFirst] at hs
      cases ha : att (c :: t) with
      | some v => rw [ha] at hs; simp at hs
      | none =>
        rw [ha] at hs
        have hm : scanFirst att t = none := by
          cases hm' : scanFirst att t with
          | none => rfl
          | some p => rw [hm'] at hs; simp at hs
        cases x with
        | nil =>
          simp only [List.nil_append] at hxy
          subst hxy
          exact ha
        | cons d x' =>
          rw [List.cons_append] at hxy
          injection hxy with h1 h2
          exact (ih.1 hm) x' y h2
    · intro hall
      rw [scanFirst, hall [] (c :: t) rfl]
      rw [ih.2 (fun x y hxy => hall (c :: x) y (by simp [hxy]))]
      rfl

/-- Strip a literal prefix (`undefined` on mismatch). -/
def stripPre (p l : L) : Option L :=
  if hasPre p l then some (l.drop p.length) else none

theorem stripPre_iff (p l r : L) : stripPre p l = some r ↔ l = p ++ r := by
  constructor
  · intro hs
    unfold stripPre at hs
    by_cases hp : hasPre p l = true
    · rw [if_pos hp] at hs
      obtain ⟨q, hq⟩ := (hasPre_iff p l).1 hp
      simp only [Option.some.injEq] at hs
      subst hs
      rw [hq, List.drop_left]
    · rw [if_neg hp] at hs; simp at hs
  · intro hl
    subst hl
    unfold stripPre
    rw [if_pos (hasPre_append p r), List.drop_left]

theorem allWs_takeWs (l : L) : allWs (takeWs l) = true := by
  unfold allWs takeWs
  induction l with
  | nil => rfl
  | cons c t ih =>
    by_cases hc : isWs c = true
    · simp [List.takeWhile_cons, hc, ih]
    · simp [List.takeWhile_cons, hc]

theorem takeWs_append_dropWs (l : L) : takeWs l ++ dropWs l = l := by
  unfold takeWs dropWs
  exact List.takeWhile_append_dropWhile isWs l

theorem dropWs_allWs_append (w r : L) (hw : allWs w = true) : dropWs (w ++ r) = dropWs r := by
  induction w with
  | nil => rfl
  | cons c t ih =>
    simp only [allWs, List.all_cons, Bool.and_eq_true] at hw
    rw [List.cons_append]
    unfold dropWs
    rw [List.dropWhile_cons_of_pos hw.1]
    exact ih hw.2

theorem dropWs_cons_notWs (c : Char) (r : L) (hc : isWs c = false) :
    dropWs (c :: r) = c :: r := by
  unfold dropWs
  rw [List.dropWhile_cons_of_neg (by simp [hc])]

theorem allWs_suffix (w h2 : L) (hw : allWs w = true) (hsub : ∃ h1, w = h1 ++ h2) :
    allWs h2 = true := by
  obtain ⟨h1, rfl⟩ := hsub
  simp only [allWs, List.all_append, Bool.and_eq_true] at hw
  exact hw.2

theorem allWs_of_append_left (h1 h2 : L) (hw : allWs (h1 ++ h2) = true) : allWs h1 = true := by
  simp only [allWs, List.all_append, Bool.and_eq_true] at hw
  exact hw.1

/-- `hasSuf s l` : does `l` end with `s`? (`String.prototype.endsWith`). -/
theorem hasSuf_iff (s l : L) : hasSuf s l = true ↔ ∃ r, l = r ++ s := by
  unfold hasSuf
  rw [hasPre_iff]
  constructor
  · rintro ⟨q, hq⟩
    refine ⟨q.reverse, ?_⟩
    have := congrArg List.reverse hq
    simpa using this
  · rintro ⟨r, rfl⟩
    exact ⟨r.reverse, by simp⟩

/-- No nonempty proper suffix of `pat` is a prefix of `ins`. -/
def sufNotPre (pat ins : L) : Bool :=
  (List.range pat.length).all (fun k => decide (k = 0) || !hasPre (pat.drop k) ins)

/-- No nonempty proper prefix of `pat` is a suffix of `ins`. -/
def preNotSuf (pat ins : L) : Bool :=
  (List.range pat.length).all (fun k => decide (k = 0) || !hasSuf (pat.take k) ins)

/-- Every nonempty proper suffix of `pat` mismatches `v0` within `v0`'s
length (so it is not a prefix of `v0 ++ b` for any `b`). -/
def noStradV (pat v0 : L) : Bool :=
  (List.range pat.length).all (fun k => decide (k = 0) || !hasPre ((pat.drop k).take v0.length) v0)

theorem sufNotPre_spec (pat ins : L) (h : sufNotPre pat ins = true) :
    ∀ k, 0 < k → k < pat.length → hasPre (pat.drop k) ins = false := by
  intro k hk0 hkl
  have := (List.all_eq_true.1 h) k (List.mem_range.2 hkl)
  simp only [Bool.or_eq_true, decide_eq_true_eq, Bool.not_eq_true'] at this
  rcases this with h0 | hF
  · omega
  · exact hF

theorem preNotSuf_spec (pat ins : L) (h : preNotSuf pat ins = true) :
    ∀ k, 0 < k → k < pat.length → hasSuf (pat.take k) ins = false := by
  intro k hk0 hkl
  have := (List.all_eq_true.1 h) k (List.mem_range.2 hkl)
  simp only [Bool.or_eq_true, decide_eq_true_eq, Bool.not_eq_true'] at this
  rcases this with h0 | hF
  · omega
  · exact hF

theorem noStradV_spec (pat v0 : L) (h : noStradV pat v0 = true) :
    ∀ k, 0 < k → k < pat.length → hasPre ((pat.drop k).take v0.length) v0 = false := by
  intro k hk0 hkl
  have := (List.all_eq_true.1 h) k (List.mem_range.2 hkl)
  simp only [Bool.or_eq_true, decide_eq_true_eq, Bool.not_eq_true'] at this
  rcases this with h0 | hF
  · omega
  · exact hF

/-- Deleting an inserted block: if `pat` occurs in `U ++ ins ++ V` but cannot
occur inside `ins`, start inside `ins`, or end inside `ins` (the three
decidable side conditions), then `pat` already occurs in `U ++ V`. -/
theorem occursIn_insert_transfer (pat U ins V : L)
    (hLen : pat.length ≤ ins.length)
    (hD1 : occursIn pat ins = false)
    (hD2 : sufNotPre pat ins = true)
    (hD3 : preNotSuf pat ins = true)
    (hocc : occursIn pat (U ++ ins ++ V) = true) :
    occursIn pat (U ++ V) = true := by
  obtain ⟨x, y, hxy⟩ := (occursIn_iff _ _).1 hocc
  have hEq : x ++ (pat ++ y) = U ++ (ins ++ V) := by
    rw [← List.append_assoc, ← hxy, List.append_assoc]
  rcases List.append_eq_append_iff.1 hEq with ⟨a', hU, hpa⟩ | ⟨c', hx, hq⟩
  · rcases List.append_eq_append_iff.1 hpa with ⟨p', ha', hy⟩ | ⟨q', hpat, hV⟩
    · exact (occursIn_iff _ _).2 ⟨x, p' ++ V, by rw [hU, ha']; simp⟩
    · by_cases hq'0 : q' = []
      · subst hq'0
        exact (occursIn_iff _ _).2 ⟨x, V, by rw [hU, hpat]; simp⟩
      · rcases List.append_eq_append_iff.1 hV.symm with ⟨b', hins, hy2⟩ | ⟨i', hq'', hV2⟩
        · by_cases ha0 : a' = []
          · subst ha0
            rw [show pat = q' from by simpa using hpat] at hD1
            rw [show occursIn q' ins = true from
              (occursIn_iff _ _).2 ⟨[], b', by rw [hins]; simp⟩] at hD1
            simp at hD1
          · have hk1 : 0 < a'.length := by
              cases a' with
              | nil => exact absurd rfl ha0
              | cons _ _ => simp
            have hk2 : a'.length < pat.length := by
              rw [hpat]
              simp only [List.length_append]
              cases q' with
              | nil => exact absurd rfl hq'0
              | cons _ _ => simp
            have hdrop : pat.drop a'.length = q' := by rw [hpat, List.drop_left]
            have hspec := sufNotPre_spec pat ins hD2 a'.length hk1 hk2
            rw [hdrop] at hspec
            rw [show hasPre q' ins = true from (hasPre_iff _ _).2 ⟨b', hins⟩] at hspec
            simp at hspec
        · have hlen2 : pat.length = a'.length + (ins.length + i'.length) := by
            rw [hpat, hq'']
            simp [List.length_append]
          have ha0 : a' = [] := by
            apply List.eq_nil_of_length_eq_zero
            omega
          have hi0 : i' = [] := by
            apply List.eq_nil_of_length_eq_zero
            omega
          subst ha0; subst hi0
          have hpi : pat = ins := by
            rw [hpat, hq'']
            simp
          rw [hpi] at hD1
          rw [show occursIn ins ins = true from
            (occursIn_iff _ _).2 ⟨[], [], by simp⟩] at hD1
          simp at hD1
  · rcases List.append_eq_append_iff.1 hq with ⟨a', hc', hV1⟩ | ⟨c2, hins, hpa2⟩
    · exact (occursIn_iff _ _).2 ⟨U ++ a', y, by rw [hV1]; simp⟩
    · rcases List.append_eq_append_iff.1 hpa2 with ⟨p2, hc2, hy⟩ | ⟨q2, hpat, hV3⟩
      · rw [show occursIn pat ins = true from
          (occursIn_iff _ _).2 ⟨c', p2, by rw [hins, hc2]; simp⟩] at hD1
        simp at hD1
      · by_cases hc20 : c2 = []
        · subst hc20
          exact (occursIn_iff _ _).2 ⟨U, y,
            by rw [hV3, show pat = q2 from by simpa using hpat]; simp⟩
        · by_cases hq20 : q2 = []
          · subst hq20
            rw [show occursIn pat ins = true from
              (occursIn_iff _ _).2 ⟨c', [], by rw [hins, hpat]; simp⟩] at hD1
            simp at hD1
          · have hk1 : 0 < c2.length := by
              cases c2 with
              | nil => exact absurd rfl hc20
              | cons _ _ => simp
            have hk2 : c2.length < pat.length := by
              rw [hpat]
              simp only [List.length_append]
              cases q2 with
              | nil => exact absurd rfl hq20
              | cons _ _ => simp
            have htake : pat.take c2.length = c2 := by rw [hpat, List.take_left]
            have hspec := preNotSuf_spec pat ins hD3 c2.length hk1 hk2
            rw [htake] at hspec
            rw [show hasSuf c2 ins = true from (hasSuf_iff _ _).2 ⟨c', hins⟩] at hspec
            simp at hspec

/-- Inserting a block: an occurrence of `pat` in `U ++ (V0 ++ b)` survives
the insertion of `ins` at the `U`/`V0` boundary provided no nonempty proper
suffix of `pat` can be a prefix of `V0 ++ _` (mismatch within `V0`). -/
theorem occursIn_insert_intro (pat U ins V0 b : L)
    (hstrad : noStradV pat V0 = true)
    (hocc : occursIn pat (U ++ (V0 ++ b)) = true) :
    occursIn pat (U ++ ins ++ (V0 ++ b)) = true := by
  obtain ⟨x, y, hxy⟩ := (occursIn_iff _ _).1 hocc
  have hEq : x ++ (pat ++ y) = U ++ (V0 ++ b) := by
    rw [← List.append_assoc, ← hxy]
  rcases List.append_eq_append_iff.1 hEq with ⟨a', hU, hpa⟩ | ⟨c', hx, hq⟩
  · rcases List.append_eq_append_iff.1 hpa with ⟨p', ha', hy⟩ | ⟨q', hpat, hV⟩
    · exact (occursIn_iff _ _).2 ⟨x, p' ++ ins ++ (V0 ++ b),
        by rw [hU, ha']; simp⟩
    · by_cases hq'0 : q' = []
      · subst hq'0
        exact (occursIn_iff _ _).2 ⟨x, ins ++ (V0 ++ b),
          by rw [hU, hpat]; simp⟩
      · by_cases ha0 : a' = []
        · subst ha0
          have hUx : U = x := by simpa using hU
          exact (occursIn_iff _ _).2 ⟨x ++ ins, y,
            by rw [hUx, hV, show pat = q' from by simpa using hpat]; simp⟩
        · exfalso
          have hk1 : 0 < a'.length := by
            cases a' with
            | nil => exact absurd rfl ha0
            | cons _ _ => simp
          have hk2 : a'.length < pat.length := by
            rw [hpat]
            simp only [List.length_append]
            cases q' with
            | nil => exact absurd rfl hq'0
            | cons _ _ => simp
          have hdrop : pat.drop a'.length = q' := by rw [hpat, List.drop_left]
          have hspec := noStradV_spec pat V0 hstrad a'.length hk1 hk2
          rw [hdrop] at hspec
          rcases List.append_eq_append_iff.1 hV.symm with ⟨a2, hV0, hy2⟩ | ⟨c2, hq'2, hb⟩
          · have htq : q'.take V0.length = q' := by
              rw [List.take_of_length_le]
              rw [hV0]
              simp
            rw [htq] at hspec
            rw [show hasPre q' V0 = true from (hasPre_iff _ _).2 ⟨a2, hV0⟩] at hspec
            simp at hspec
          · have htq : q'.take V0.length = V0 := by rw [hq'2, List.take_left]
            rw [htq] at hspec
            rw [show hasPre V0 V0 = true from (hasPre_iff _ _).2 ⟨[], by simp⟩] at hspec
            simp at hspec
  · exact (occursIn_iff _ _).2 ⟨U ++ ins ++ c', y,
      by rw [show V0 ++ b = c' ++ (pat ++ y) from hq]; simp⟩

theorem dropWs_of_allWs (l : L) (hl : allWs l = true) : dropWs l = [] := by
  have := dropWs_allWs_append l [] hl
  simpa using this

/-- Is the first non-whitespace character of `ins` distinct from `c`
(and existent)?  Used to show that a whitespace run followed by `c` in a
regex match cannot reach into the inserted block `ins`. -/
def insFirstNonWsNe (ins : L) (c : Char) : Bool :=
  match dropWs ins with
  | [] => false
  | d :: _ => decide (d ≠ c)

theorem insFirstNonWsNe_spec (ins : L) (c : Char) (h : insFirstNonWsNe ins c = true) :
    dropWs ins ≠ [] ∧ ∀ d dt, dropWs ins = d :: dt → d ≠ c := by
  unfold insFirstNonWsNe at h
  cases hd : dropWs ins with
  | nil => rw [hd] at h; simp at h
  | cons d dt =>
    rw [hd] at h
    simp only [decide_eq_true_eq] at h
    refine ⟨by simp, fun d' dt' hd' => ?_⟩
    injection hd' with h1 h2
    rw [← h1]
    exact h

/-- Placement of a whitespace run followed by a non-whitespace character `c`
relative to a splice `g ++ ins ++ V`: if the first non-whitespace character
of `ins` differs from `c`, then the run and `c` must lie inside `g`. -/
theorem wsCharPlace (w : L) (c : Char) (T g ins V : L)
    (hw : allWs w = true) (hc : isWs c = false)
    (hfn : insFirstNonWsNe ins c = true)
    (hEq : w ++ (c :: T) = g ++ (ins ++ V)) :
    ∃ g3, g = w ++ (c :: g3) ∧ T = g3 ++ (ins ++ V) := by
  obtain ⟨hins0, hinsh⟩ := insFirstNonWsNe_spec ins c hfn
  rcases List.append_eq_append_iff.1 hEq with ⟨a', hg, hct⟩ | ⟨c', hw2, hiv⟩
  · cases a' with
    | nil =>
      exfalso
      simp only [List.nil_append] at hct
      cases ins with
      | nil => exact hins0 rfl
      | cons c0 insr =>
        rw [List.cons_append] at hct
        injection hct with h1 h2
        subst h1
        exact hinsh c insr (dropWs_cons_notWs c insr hc) rfl
    | cons c1 a'' =>
      rw [List.cons_append] at hct
      injection hct with h1 h2
      subst h1
      exact ⟨a'', by rw [hg], h2⟩
  · exfalso
    have hc' : allWs c' = true := allWs_suffix w c' hw ⟨g, hw2⟩
    rcases List.append_eq_append_iff.1 hiv.symm with ⟨a2, hins, hct2⟩ | ⟨i2, hc'2, hV2⟩
    · cases a2 with
      | nil =>
        rw [List.append_nil] at hins
        exact hins0 (by rw [hins]; exact dropWs_of_allWs c' hc')
      | cons c2 a2' =>
        rw [List.cons_append] at hct2
        injection hct2 with h1 h2
        subst h1
        refine hinsh c (a2') ?_ rfl
        rw [hins, dropWs_allWs_append c' _ hc', dropWs_cons_notWs c _ hc]
    · have : allWs ins = true := allWs_of_append_left ins i2 (by rw [← hc'2]; exact hc')
      exact hins0 (dropWs_of_allWs ins this)

/-- Placement of a literal `lit` followed by tail `T` relative to a splice
`U ++ ins ++ V`: under the non-overlap side conditions, either `lit` sits
inside `U` (with the tail continuing across the splice), or the whole
occurrence sits inside `V`. -/
theorem litPlace (lit T x U ins V : L)
    (hlen : lit.length ≤ ins.length)
    (hD1 : occursIn lit ins = false)
    (hD2 : sufNotPre lit ins = true)
    (hD3 : preNotSuf lit ins = true)
    (hEq : x ++ (lit ++ T) = U ++ (ins ++ V)) :
    (∃ g, U = x ++ (lit ++ g) ∧ T = g ++ (ins ++ V))
    ∨ (∃ e2, x = U ++ (ins ++ e2) ∧ V = e2 ++ (lit ++ T)) := by
  rcases List.append_eq_append_iff.1 hEq with ⟨a', hU, hpa⟩ | ⟨c', hx, hq⟩
  · rcases List.append_eq_append_iff.1 hpa with ⟨p', ha', hT⟩ | ⟨q', hlit, hV⟩
    · exact Or.inl ⟨p', by rw [hU, ha'], hT⟩
    · by_cases hq'0 : q' = []
      · subst hq'0
        left
        refine ⟨[], ?_, ?_⟩
        · rw [hU]
          rw [show lit = a' from by simpa using hlit]
          simp
        · simpa using hV.symm
      · exfalso
        rcases List.append_eq_append_iff.1 hV.symm with ⟨b', hins, hy2⟩ | ⟨i', hq'', hV2⟩
        · by_cases ha0 : a' = []
          · subst ha0
            rw [show lit = q' from by simpa using hlit] at hD1
            rw [show occursIn q' ins = true from
              (occursIn_iff _ _).2 ⟨[], b', by rw [hins]; simp⟩] at hD1
            simp at hD1
          · have hk1 : 0 < a'.length := by
              cases a' with
              | nil => exact absurd rfl ha0
              | cons _ _ => simp
            have hk2 : a'.length < lit.length := by
              rw [hlit]
              simp only [List.length_append]
              cases q' with
              | nil => exact absurd rfl hq'0
              | cons _ _ => simp
            have hdrop : lit.drop a'.length = q' := by rw [hlit, List.drop_left]
            have hspec := sufNotPre_spec lit ins hD2 a'.length hk1 hk2
            rw [hdrop] at hspec
            rw [show hasPre q' ins = true from (hasPre_iff _ _).2 ⟨b', hins⟩] at hspec
            simp at hspec
        · have hlen2 : lit.length = a'.length + (ins.length + i'.length) := by
            rw [hlit, hq'']
            simp [List.length_append]
          have ha0 : a' = [] := by
            apply List.eq_nil_of_length_eq_zero
            omega
          have hi0 : i' = [] := by
            apply List.eq_nil_of_length_eq_zero
            omega
          subst ha0; subst hi0
          have hpi : lit = ins := by
            rw [hlit, hq'']
            simp
          rw [hpi] at hD1
          rw [show occursIn ins ins = true from
            (occursIn_iff _ _).2 ⟨[], [], by simp⟩] at hD1
          simp at hD1
  · rcases List.append_eq_append_iff.1 hq with ⟨a', hc', hV1⟩ | ⟨c2, hins, hpa2⟩
    · exact Or.inr ⟨a', by simp [hx, hc'], hV1⟩
    · rcases List.append_eq_append_iff.1 hpa2 with ⟨p2, hc2, hT⟩ | ⟨q2, hlit, hV3⟩
      · exfalso
        rw [show occursIn lit ins = true from
          (occursIn_iff _ _).2 ⟨c', p2, by rw [hins, hc2]; simp⟩] at hD1
        simp at hD1
      · by_cases hc20 : c2 = []
        · subst hc20
          rw [List.append_nil] at hins
          refine Or.inr ⟨[], by rw [hx, hins]; simp, ?_⟩
        
          rw [hV3, show lit = q2 from by simpa using hlit]
          simp
        · exfalso
          by_cases hq20 : q2 = []
          · subst hq20
            rw [show occursIn lit ins = true from
              (occursIn_iff _ _).2 ⟨c', [], by rw [hins, hlit]; simp⟩] at hD1
            simp at hD1
          · have hk1 : 0 < c2.length := by
              cases c2 with
              | nil => exact absurd rfl hc20
              | cons _ _ => simp
            have hk2 : c2.length < lit.length := by
              rw [hlit]
              simp only [List.length_append]
              cases q2 with
              | nil => exact absurd rfl hq20
              | cons _ _ => simp
            have htake : lit.take c2.length = c2 := by rw [hlit, List.take_left]
            have hspec := preNotSuf_spec lit ins hD3 c2.length hk1 hk2
            rw [htake] at hspec
            rw [show hasSuf c2 ins = true from (hasSuf_iff _ _).2 ⟨c', hins⟩] at hspec
            simp at hspec

/-- An occurrence, anywhere in `content`, of the pattern family
`lit \s* c1 \s* c2 tail` (two whitespace runs, then a tail property). -/
def Shape2Occ (lit : L) (c1 c2 : Char) (tailP : L → Prop) (content : L) : Prop :=
  ∃ x w1 w2 rest, content = x ++ (lit ++ (w1 ++ (c1 :: (w2 ++ (c2 :: rest)))))
    ∧ allWs w1 = true ∧ allWs w2 = true ∧ tailP rest

/-- An occurrence of `lit \s* c1 tail`. -/
def Shape1Occ (lit : L) (c1 : Char) (tailP : L → Prop) (content : L) : Prop :=
  ∃ x w1 rest, content = x ++ (lit ++ (w1 ++ (c1 :: rest)))
    ∧ allWs w1 = true ∧ tailP rest

theorem shape2Occ_transfer (lit : L) (c1 c2 : Char) (tailP : L → Prop) (U ins V : L)
    (hlen : lit.length ≤ ins.length)
    (hD1 : occursIn lit ins = false) (hD2 : sufNotPre lit ins = true)
    (hD3 : preNotSuf lit ins = true)
    (hc1 : isWs c1 = false) (hc2 : isWs c2 = false)
    (hfn1 : insFirstNonWsNe ins c1 = true) (hfn2 : insFirstNonWsNe ins c2 = true)
    (htail : ∀ u4 : L, tailP (u4 ++ (ins ++ V)) → tailP (u4 ++ V))
    (hocc : Shape2Occ lit c1 c2 tailP (U ++ (ins ++ V))) :
    Shape2Occ lit c1 c2 tailP (U ++ V) := by
  obtain ⟨x, w1, w2, rest, hEq, hw1, hw2, htl⟩ := hocc
  rcases litPlace lit _ x U ins V hlen hD1 hD2 hD3 hEq.symm with ⟨g, hU, hT⟩ | ⟨e2, hx, hV⟩
  · obtain ⟨g3, hg, hT2⟩ := wsCharPlace w1 c1 _ g ins V hw1 hc1 hfn1 hT
    obtain ⟨g4, hg3, hT3⟩ := wsCharPlace w2 c2 _ g3 ins V hw2 hc2 hfn2 hT2
    refine ⟨x, w1, w2, g4 ++ V, ?_, hw1, hw2, htail g4 (by rw [← hT3]; exact htl)⟩
    rw [hU, hg, hg3]
    simp
  · refine ⟨U ++ e2, w1, w2, rest, ?_, hw1, hw2, htl⟩
    rw [hV]
    simp

theorem shape1Occ_transfer (lit : L) (c1 : Char) (tailP : L → Prop) (U ins V : L)
    (hlen : lit.length ≤ ins.length)
    (hD1 : occursIn lit ins = false) (hD2 : sufNotPre lit ins = true)
    (hD3 : preNotSuf lit ins = true)
    (hc1 : isWs c1 = false)
    (hfn1 : insFirstNonWsNe ins c1 = true)
    (htail : ∀ u4 : L, tailP (u4 ++ (ins ++ V)) → tailP (u4 ++ V))
    (hocc : Shape1Occ lit c1 tailP (U ++ (ins ++ V))) :
    Shape1Occ lit c1 tailP (U ++ V) := by
  obtain ⟨x, w1, rest, hEq, hw1, htl⟩ := hocc
  rcases litPlace lit _ x U ins V hlen hD1 hD2 hD3 hEq.symm with ⟨g, hU, hT⟩ | ⟨e2, hx, hV⟩
  · obtain ⟨g3, hg, hT2⟩ := wsCharPlace w1 c1 _ g ins V hw1 hc1 hfn1 hT
    refine ⟨x, w1, g3 ++ V, ?_, hw1, htail g3 (by rw [← hT2]; exact htl)⟩
    rw [hU, hg]
    simp
  · refine ⟨U ++ e2, w1, rest, ?_, hw1, htl⟩
    rw [hV]
    simp

/- ## NextjsFramework.updateNextConfig (src/src/frameworks/nextjs/index.ts)

The patcher reads the config file, returns without writing when the marker
token "@solana/wallet-adapter" is present, and otherwise applies two passes:
stepA (transpilePackages merge / module.exports / export default /
wholesale fallback) and stepB (webpack block insertion before the trailing
close brace, or externals insertion into an existing webpack function),
then writes the result unconditionally. -/

def marker : L := strL "@solana/wallet-adapter"

def litT : L := strL "transpilePackages"

def litM : L := strL "module.exports"

def litE : L := strL "export default"

def newPkgsQuoted : L := strL "\x27@solana/wallet-adapter-base\x27, \x27@solana/wallet-adapter-react\x27, \x27@solana/wallet-adapter-react-ui\x27, \x27@solana/wallet-adapter-wallets\x27"

/-- The replacement produced by the `/transpilePackages\s*:\s*\[(.*?)\]/s`
callback, given the captured group (the text between the brackets). -/
def transpileReplacement (cap : L) : L :=
  let packagesList := jsTrim cap
  if packagesList = [] then
    strL "transpilePackages: [" ++ (newPkgsQuoted ++ strL "]")
  else
    strL "transpilePackages: [" ++ (packagesList ++
      ((if hasSuf (strL ",") packagesList then [] else strL ",") ++
        (strL " " ++ (newPkgsQuoted ++ strL "]"))))

/-- Attempt of `/transpilePackages\s*:\s*\[(.*?)\]/s` at the start of `s`:
returns (first ws run, second ws run, lazy capture, rest after the match). -/
def attTranspile (s : L) : Option (L × L × L × L) :=
  match stripPre litT s with
  | none => none
  | some r1 =>
    match stripPre [':'] (dropWs r1) with
    | none => none
    | some r2 =>
      match stripPre ['['] (dropWs r2) with
      | none => none
      | some r3 =>
        match findFirst [']'] r3 with
        | none => none
        | some (cap, rest) => some (takeWs r1, takeWs r2, cap, rest)

def matchTranspile (content : L) : Option (L × (L × L × L × L)) :=
  scanFirst attTranspile content

/-- Attempt of `/module\.exports\s*=\s*{/` at the start of `s`. -/
def attModuleExports (s : L) : Option (L × L × L) :=
  match stripPre litM s with
  | none => none
  | some r1 =>
    match stripPre ['='] (dropWs r1) with
    | none => none
    | some r2 =>
      match stripPre ['\x7b'] (dropWs r2) with
      | none => none
      | some r3 => some (takeWs r1, takeWs r2, r3)

def matchModuleExports (content : L) : Option (L × (L × L × L)) :=
  scanFirst attModuleExports content

/-- Attempt of `/export default\s*{/` at the start of `s`. -/
def attExportDefault (s : L) : Option (L × L) :=
  match stripPre litE s with
  | none => none
  | some r1 =>
    match stripPre ['\x7b'] (dropWs r1) with
    | none => none
    | some r2 => some (takeWs r1, r2)

def matchExportDefault (content : L) : Option (L × (L × L)) :=
  scanFirst attExportDefault content

def modExpReplacement : L := strL "module.exports = \x7b\n  transpilePackages: [\x27@solana/wallet-adapter-base\x27, \x27@solana/wallet-adapter-react\x27, \x27@solana/wallet-adapter-react-ui\x27, \x27@solana/wallet-adapter-wallets\x27],"

def expDefReplacement : L := strL "export default \x7b\n  transpilePackages: [\x27@solana/wallet-adapter-base\x27, \x27@solana/wallet-adapter-react\x27, \x27@solana/wallet-adapter-react-ui\x27, \x27@solana/wallet-adapter-wallets\x27],"

def fallbackConfig : L := strL "/** @type \x7bimport(\x27next\x27).NextConfig\x7d */\nmodule.exports = \x7b\n  reactStrictMode: true,\n  transpilePackages: [\n    \x27@solana/wallet-adapter-base\x27,\n    \x27@solana/wallet-adapter-react\x27,\n    \x27@solana/wallet-adapter-react-ui\x27,\n    \x27@solana/wallet-adapter-wallets\x27\n  ],\n\x7d;\n"

/-- First pass of `updateNextConfig`: the transpilePackages /
module.exports / export default / fallback branch chain. -/
def stepA (content : L) : L :=
  if occursIn litT content then
    match matchTranspile content with
    | none => content
    | some (pre, _, _, cap, rest) => pre ++ (transpileReplacement cap ++ rest)
  else if occursIn litM content then
    match matchModuleExports content with
    | none => content
    | some (pre, _, _, rest) => pre ++ (modExpReplacement ++ rest)
  else if occursIn litE content then
    match matchExportDefault content with
    | none => content
    | some (pre, _, rest) => pre ++ (expDefReplacement ++ rest)
  else fallbackConfig

def webpackConfigW : L := strL "\n  webpack: (config) => \x7b\n    config.resolve.fallback = \x7b\n      ...config.resolve.fallback,\n      fs: false,\n      os: false,\n      path: false,\n      crypto: false,\n    \x7d;\n    config.externals.push(\x27pino-pretty\x27, \x27lokijs\x27, \x27encoding\x27);\n    return config;\n  \x7d,"

/-- The inserted block of the `/};(\s*)$/` and `/}(\s*)$/` replacements,
grouped so the original close brace and trailing whitespace follow it. -/
def insW : L := webpackConfigW ++ strL "\n"

/-- Attempt of `/};(\s*)$/` at the start of `s` (no `m` flag: the
whitespace run must extend to the end of the input). -/
def attEndBraceSemi (s : L) : Option L :=
  match stripPre (strL "\x7d;") s with
  | none => none
  | some r => if allWs r then some r else none

def matchEndBraceSemi (content : L) : Option (L × L) :=
  scanFirst attEndBraceSemi content

/-- Attempt of `/}(\s*)$/` at the start of `s`. -/
def attEndBrace (s : L) : Option L :=
  match stripPre ['\x7d'] s with
  | none => none
  | some r => if allWs r then some r else none

def matchEndBrace (content : L) : Option (L × L) :=
  scanFirst attEndBrace content

def rcLit : L := strL "return config;"

/-- The `$1 ... $2` externals replacement inserts this between the captured
webpack-function prefix and "return config;". -/
def extIns : L := strL "config.externals.push(\x27pino-pretty\x27, \x27lokijs\x27, \x27encoding\x27);\n    "

/-- Attempt of `/(webpack\s*:\s*\(\s*config\s*\)\s*=>\s*{[^}]*)(return config;)/`
at the start of `s`: returns (capture 1, rest after the match).  The greedy
`[^}]*` with backtracking stops at the last "return config;" inside the
brace-free region after the opening brace. -/
def attWebpackFn (s : L) : Option (L × L) :=
  match stripPre (strL "webpack") s with
  | none => none
  | some r1 =>
    match stripPre [':'] (dropWs r1) with
    | none => none
    | some r2 =>
      match stripPre ['('] (dropWs r2) with
      | none => none
      | some r3 =>
        match stripPre (strL "config") (dropWs r3) with
        | none => none
        | some r4 =>
          match stripPre [')'] (dropWs r4) with
          | none => none
          | some r5 =>
            match stripPre (strL "=>") (dropWs r5) with
            | none => none
            | some r6 =>
              match stripPre ['\x7b'] (dropWs r6) with
              | none => none
              | some r7 =>
                match findLast rcLit (r7.takeWhile (fun c => !(c = '\x7d'))) with
                | none => none
                | some (ra, rb) =>
                  some (strL "webpack" ++ (takeWs r1 ++ ([':'] ++ (takeWs r2 ++
                      (['('] ++ (takeWs r3 ++ (strL "config" ++ (takeWs r4 ++
                      ([')'] ++ (takeWs r5 ++ (strL "=>" ++ (takeWs r6 ++
                      (['\x7b'] ++ ra)))))))))))),
                    rb ++ r7.dropWhile (fun c => !(c = '\x7d')))

def matchWebpackFn (content : L) : Option (L × (L × L)) :=
  scanFirst attWebpackFn content

/-- Second pass of `updateNextConfig`: the webpack / externals branch. -/
def stepB (content : L) : L :=
  if occursIn (strL "webpack") content = false then
    match matchEndBraceSemi content with
    | some (pre, ws) => pre ++ (insW ++ (strL "\x7d;" ++ ws))
    | none =>
      match matchEndBrace content with
      | some (pre, ws) => pre ++ (insW ++ (['\x7d'] ++ ws))
      | none => content
  else if occursIn (strL "externals") content = false then
    match matchWebpackFn content with
    | none => content
    | some (pre, g1, tail) => (pre ++ g1) ++ (extIns ++ (rcLit ++ tail))
  else content

/-- `updateNextConfig` on file content: returns the content after the call
and whether the file was written. -/
def updateNextConfig (content : L) : L × Bool :=
  if occursIn marker content then (content, false)
  else (stepB (stepA content), true)

/-- The C6 scenario input: a Next.js config whose transpilePackages array
already holds the entry 'x'. -/
def nextCfgC6 : L := strL "module.exports = \x7b\n  transpilePackages: [\x27x\x27],\n\x7d;\n"

/-- C6: merging into a config containing `transpilePackages: ['x']` writes a
file whose transpilePackages list is `['x', <the four wallet-adapter
packages>]` — the new entries appended after the existing one with a comma
separator — and re-running the merge on the result is a no-op (no write,
content unchanged), because the inserted literal text (the marker token
"@solana/wallet-adapter") is already present in the content. -/
theorem claim_C6_merge_then_noop :
    (updateNextConfig nextCfgC6).2 = true
    ∧ occursIn (strL "transpilePackages: [\x27x\x27, \x27@solana/wallet-adapter-base\x27, \x27@solana/wallet-adapter-react\x27, \x27@solana/wallet-adapter-react-ui\x27, \x27@solana/wallet-adapter-wallets\x27]") (updateNextConfig nextCfgC6).1 = true
    ∧ updateNextConfig (updateNextConfig nextCfgC6).1 = ((updateNextConfig nextCfgC6).1, false) := by
  refine ⟨rfl, ?_, ?_⟩ <;> decide

/- ## The `/^import.*?;(\r?\n|$)/gm` import-section locator

Shared by the Pages Router, React and Vue patchers (the Vue variant makes
the semicolon optional: `;?`).  `.` never matches a line terminator; with
the `m` flag `$` also matches just before any line terminator, and `^`
matches just after any line terminator character. -/

/-- Match `(\r?\n|$)` at the current position: the consumed characters and
the rest.  `$` consumes nothing and succeeds at the end of the input or
before a line terminator. -/
def termEnd : L → Option (L × L)
  | [] => some ([], [])
  | '\n' :: r => some (['\n'], r)
  | '\r' :: '\n' :: r => some (['\r', '\n'], r)
  | c :: r => if isLineTerm c then some ([], c :: r) else none

/-- Lazy scan for `.*?;(\r?\n|$)` (`semi = true`) or `.*?;?(\r?\n|$)`
(`semi = false`): the shortest prefix after which the tail pattern
matches.  Returns (consumed characters including the end, rest). -/
def importEnd (semi : Bool) : L → Option (L × L)
  | [] => if semi then none else some ([], [])
  | c :: t =>
    if h : c = ';' then
      match termEnd t with
      | some (e, rest) => some (';' :: e, rest)
      | none => (importEnd semi t).map (fun p => (c :: p.1, p.2))
    else
      if semi then
        if isLineTerm c then none
        else (importEnd semi t).map (fun p => (c :: p.1, p.2))
      else
        match termEnd (c :: t) with
        | some (e, rest) => some (e, rest)
        | none => (importEnd semi t).map (fun p => (c :: p.1, p.2))

/-- Attempt the import pattern at the start of `s` (which must be at a
line start): returns (matched text, rest). -/
def attImport (semi : Bool) (s : L) : Option (L × L) :=
  match stripPre (strL "import") s with
  | none => none
  | some r => (importEnd semi r).map (fun p => (strL "import" ++ p.1, p.2))

/-- Whether the position after a match text `m` is a line start (the match
consumed a final line terminator). -/
def endsWithTerm (m : L) : Bool :=
  match m.reverse with
  | [] => false
  | c :: _ => isLineTerm c

/-- The list of texts matched by the global import pattern, scanning with a
line-start flag.  Fuel is the remaining input length. -/
def importMatchesGo (semi : Bool) : Nat → Bool → L → List L
  | 0, _, _ => []
  | _ + 1, _, [] => []
  | f + 1, atStart, c :: t =>
    if atStart then
      match attImport semi (c :: t) with
      | some (m, rest) => m :: importMatchesGo semi f (endsWithTerm m) rest
      | none => importMatchesGo semi f (isLineTerm c) t
    else importMatchesGo semi f (isLineTerm c) t

def importMatches (semi : Bool) (content : L) : List L :=
  importMatchesGo semi content.length true content

/-- The import-section insertion step shared by the patchers: if the
global import pattern matched, insert `stmtMid` at
`lastIndexOf(lastImport) + lastImport.length`; otherwise prepend
`stmtTop`. -/
def insertAfterImports (semi : Bool) (stmtMid stmtTop : L) (content : L) : L :=
  match (importMatches semi content).getLast? with
  | none => stmtTop ++ content
  | some lastImport =>
    match findLast lastImport content with
    | none => content
    | some (a, b) => a ++ (lastImport ++ (stmtMid ++ b))

theorem attEndBraceSemi_sound (s ws : L) (h : attEndBraceSemi s = some ws) :
    allWs ws = true ∧ s = strL "\x7d;" ++ ws := by
  unfold attEndBraceSemi at h
  cases hstrip : stripPre (strL "\x7d;") s with
  | none => rw [hstrip] at h; exact Option.noConfusion h
  | some r =>
    rw [hstrip] at h
    dsimp only at h
    by_cases hws : allWs r = true
    · rw [if_pos hws] at h
      have hr : r = ws := Option.some.inj h
      subst hr
      exact ⟨hws, (stripPre_iff _ _ _).1 hstrip⟩
    · rw [if_neg hws] at h
      exact Option.noConfusion h

theorem attEndBrace_sound (s ws : L) (h : attEndBrace s = some ws) :
    allWs ws = true ∧ s = ['\x7d'] ++ ws := by
  unfold attEndBrace at h
  cases hstrip : stripPre ['\x7d'] s with
  | none => rw [hstrip] at h; exact Option.noConfusion h
  | some r =>
    rw [hstrip] at h
    dsimp only at h
    by_cases hws : allWs r = true
    · rw [if_pos hws] at h
      have hr : r = ws := Option.some.inj h
      subst hr
      exact ⟨hws, (stripPre_iff _ _ _).1 hstrip⟩
    · rw [if_neg hws] at h
      exact Option.noConfusion h

theorem attWebpackFn_sound (s g1 tail : L) (h : attWebpackFn s = some (g1, tail)) :
    s = g1 ++ (rcLit ++ tail) ∧ ∃ g1r, g1 = strL "webpack" ++ g1r := by
  unfold attWebpackFn at h
  cases h1 : stripPre (strL "webpack") s with
  | none => rw [h1] at h; exact Option.noConfusion h
  | some r1 =>
  rw [h1] at h; dsimp only at h
  cases h2 : stripPre [':'] (dropWs r1) with
  | none => rw [h2] at h; exact Option.noConfusion h
  | some r2 =>
  rw [h2] at h; dsimp only at h
  cases h3 : stripPre ['('] (dropWs r2) with
  | none => rw [h3] at h; exact Option.noConfusion h
  | some r3 =>
  rw [h3] at h; dsimp only at h
  cases h4 : stripPre (strL "config") (dropWs r3) with
  | none => rw [h4] at h; exact Option.noConfusion h
  | some r4 =>
  rw [h4] at h; dsimp only at h
  cases h5 : stripPre [')'] (dropWs r4) with
  | none => rw [h5] at h; exact Option.noConfusion h
  | some r5 =>
  rw [h5] at h; dsimp only at h
  cases h6 : stripPre (strL "=>") (dropWs r5) with
  | none => rw [h6] at h; exact Option.noConfusion h
  | some r6 =>
  rw [h6] at h; dsimp only at h
  cases h7 : stripPre ['\x7b'] (dropWs r6) with
  | none => rw [h7] at h; exact Option.noConfusion h
  | some r7 =>
  rw [h7] at h; dsimp only at h
  cases h8 : findLast rcLit (r7.takeWhile (fun c => !(c = '\x7d'))) with
  | none => rw [h8] at h; exact Option.noConfusion h
  | some p =>
  obtain ⟨ra, rb⟩ := p
  rw [h8] at h; dsimp only at h
  have hpair := Option.some.inj h
  rw [Prod.mk.injEq] at hpair
  obtain ⟨hg1, htail⟩ := hpair
  have e1 : s = strL "webpack" ++ r1 := (stripPre_iff _ _ _).1 h1
  have e2 : dropWs r1 = [':'] ++ r2 := (stripPre_iff _ _ _).1 h2
  have e3 : dropWs r2 = ['('] ++ r3 := (stripPre_iff _ _ _).1 h3
  have e4 : dropWs r3 = strL "config" ++ r4 := (stripPre_iff _ _ _).1 h4
  have e5 : dropWs r4 = [')'] ++ r5 := (stripPre_iff _ _ _).1 h5
  have e6 : dropWs r5 = strL "=>" ++ r6 := (stripPre_iff _ _ _).1 h6
  have e7 : dropWs r6 = ['\x7b'] ++ r7 := (stripPre_iff _ _ _).1 h7
  have e8 : r7.takeWhile (fun c => !(c = '\x7d')) = ra ++ rcLit ++ rb :=
    findLast_sound rcLit _ ra rb h8
  constructor
  · set A := r7.dropWhile (fun c => !(c = '\x7d')) with hA
    have es : r7 = (ra ++ rcLit ++ rb) ++ A := by
      rw [hA, ← e8]
      exact (List.takeWhile_append_dropWhile _ r7).symm
    have hs := e1
    rw [← takeWs_append_dropWs r1, e2] at hs
    rw [← takeWs_append_dropWs r2, e3] at hs
    rw [← takeWs_append_dropWs r3, e4] at hs
    rw [← takeWs_append_dropWs r4, e5] at hs
    rw [← takeWs_append_dropWs r5, e6] at hs
    rw [← takeWs_append_dropWs r6, e7] at hs
    rw [es] at hs
    rw [← hg1, ← htail, hs]
    simp
  · exact ⟨_, hg1.symm⟩

/-- The four possible outcomes of `stepB`: identity, webpack-block insertion
before a trailing `\x7d;` or `\x7d`, or externals insertion before
"return config;" inside an existing webpack function. -/
theorem stepB_cases (G : L) :
    stepB G = G
    ∨ (∃ U ws, allWs ws = true ∧ G = U ++ (strL "\x7d;" ++ ws)
        ∧ stepB G = U ++ (insW ++ (strL "\x7d;" ++ ws)))
    ∨ (∃ U ws, allWs ws = true ∧ G = U ++ (['\x7d'] ++ ws)
        ∧ stepB G = U ++ (insW ++ (['\x7d'] ++ ws)))
    ∨ (∃ U tail, occursIn (strL "webpack") U = true ∧ G = U ++ (rcLit ++ tail)
        ∧ stepB G = U ++ (extIns ++ (rcLit ++ tail))) := by
  by_cases hw : occursIn (strL "webpack") G = false
  · cases hm : matchEndBraceSemi G with
    | some p =>
      obtain ⟨pre, ws⟩ := p
      obtain ⟨suf, hsplit, hatt⟩ := scanFirst_sound _ G pre ws hm
      obtain ⟨hws, hsuf⟩ := attEndBraceSemi_sound suf ws hatt
      refine Or.inr (Or.inl ⟨pre, ws, hws, ?_, ?_⟩)
      · rw [hsplit, hsuf]
      · unfold stepB
        rw [if_pos hw, hm]
    | none =>
      cases hm2 : matchEndBrace G with
      | some p =>
        obtain ⟨pre, ws⟩ := p
        obtain ⟨suf, hsplit, hatt⟩ := scanFirst_sound _ G pre ws hm2
        obtain ⟨hws, hsuf⟩ := attEndBrace_sound suf ws hatt
        refine Or.inr (Or.inr (Or.inl ⟨pre, ws, hws, ?_, ?_⟩))
        · rw [hsplit, hsuf]
        · unfold stepB
          rw [if_pos hw, hm, hm2]
      | none =>
        refine Or.inl ?_
        unfold stepB
        rw [if_pos hw, hm, hm2]
  · by_cases he : occursIn (strL "externals") G = false
    · cases hm : matchWebpackFn G with
      | some p =>
        obtain ⟨pre, g1, tail⟩ := p
        obtain ⟨suf, hsplit, hatt⟩ := scanFirst_sound _ G pre (g1, tail) hm
        obtain ⟨hsuf, g1r, hg1⟩ := attWebpackFn_sound suf g1 tail hatt
        refine Or.inr (Or.inr (Or.inr ⟨pre ++ g1, tail, ?_, ?_, ?_⟩))
        · rw [hg1, ← List.append_assoc]
          exact occursIn_self_append _ pre g1r
        · rw [hsplit, hsuf]
          simp
        · unfold stepB
          rw [if_neg hw, if_pos he, hm]
      | none =>
        refine Or.inl ?_
        unfold stepB
        rw [if_neg hw, if_pos he, hm]
    · refine Or.inl ?_
      unfold stepB
      rw [if_neg hw, if_neg he]

/-- `m` occurs at least twice (disjointly) in `R`. -/
def dblIn (m R : L) : Prop :=
  ∃ u v w, R = u ++ (m ++ (v ++ (m ++ w)))

theorem dblIn_within (m Q A B : L) (hq : dblIn m Q) : dblIn m (A ++ (Q ++ B)) := by
  obtain ⟨u, v, w, hQ⟩ := hq
  exact ⟨A ++ u, v, w ++ B, by rw [hQ]; simp⟩

theorem dblIn_newPkgsQuoted : dblIn marker newPkgsQuoted :=
  ⟨strL "\x27", strL "-base\x27, \x27",
   strL "-react\x27, \x27@solana/wallet-adapter-react-ui\x27, \x27@solana/wallet-adapter-wallets\x27",
   by decide⟩

theorem dblIn_transpileReplacement (cap : L) : dblIn marker (transpileReplacement cap) := by
  unfold transpileReplacement
  by_cases h : jsTrim cap = []
  · rw [if_pos h]
    have := dblIn_within marker newPkgsQuoted (strL "transpilePackages: [") (strL "]") dblIn_newPkgsQuoted
    obtain ⟨u, v, w, hQ⟩ := this
    exact ⟨u, v, w, by rw [← hQ]⟩
  · rw [if_neg h]
    obtain ⟨u, v, w, hQ⟩ := dblIn_newPkgsQuoted
    refine ⟨strL "transpilePackages: [" ++ (jsTrim cap ++
      ((if hasSuf (strL ",") (jsTrim cap) then [] else strL ",") ++ (strL " " ++ u))), v,
      w ++ strL "]", ?_⟩
    rw [hQ]
    simp

theorem dblIn_modExpReplacement : dblIn marker modExpReplacement :=
  ⟨strL "module.exports = \x7b\n  transpilePackages: [\x27", strL "-base\x27, \x27",
   strL "-react\x27, \x27@solana/wallet-adapter-react-ui\x27, \x27@solana/wallet-adapter-wallets\x27],",
   by decide⟩

theorem dblIn_expDefReplacement : dblIn marker expDefReplacement :=
  ⟨strL "export default \x7b\n  transpilePackages: [\x27", strL "-base\x27, \x27",
   strL "-react\x27, \x27@solana/wallet-adapter-react-ui\x27, \x27@solana/wallet-adapter-wallets\x27],",
   by decide⟩

theorem dblIn_fallbackConfig : dblIn marker fallbackConfig :=
  ⟨strL "/** @type \x7bimport(\x27next\x27).NextConfig\x7d */\nmodule.exports = \x7b\n  reactStrictMode: true,\n  transpilePackages: [\n    \x27",
   strL "-base\x27,\n    \x27",
   strL "-react\x27,\n    \x27@solana/wallet-adapter-react-ui\x27,\n    \x27@solana/wallet-adapter-wallets\x27\n  ],\n\x7d;\n",
   by decide⟩

/-- `stepA` either leaves the content unchanged or produces content holding
two disjoint copies of the marker token. -/
theorem stepA_cases (F : L) : stepA F = F ∨ dblIn marker (stepA F) := by
  unfold stepA
  by_cases hT : occursIn litT F = true
  · rw [if_pos hT]
    cases hm : matchTranspile F with
    | none => exact Or.inl rfl
    | some p =>
      obtain ⟨pre, w1, w2, cap, rest⟩ := p
      exact Or.inr (dblIn_within marker _ pre rest (dblIn_transpileReplacement cap))
  · rw [if_neg hT]
    by_cases hM : occursIn litM F = true
    · rw [if_pos hM]
      cases hm : matchModuleExports F with
      | none => exact Or.inl rfl
      | some p =>
        obtain ⟨pre, w1, w2, rest⟩ := p
        exact Or.inr (dblIn_within marker _ pre rest dblIn_modExpReplacement)
    · rw [if_neg hM]
      by_cases hE : occursIn litE F = true
      · rw [if_pos hE]
        cases hm : matchExportDefault F with
        | none => exact Or.inl rfl
        | some p =>
          obtain ⟨pre, w, rest⟩ := p
          exact Or.inr (dblIn_within marker _ pre rest dblIn_expDefReplacement)
      · rw [if_neg hE]
        obtain ⟨u, v, w, hQ⟩ := dblIn_fallbackConfig
        exact Or.inr ⟨u, v, w, hQ⟩

/-- A single insertion cut cannot remove both copies of a twice-occurring
pattern: one of them survives on one side of the cut. -/
theorem dbl_insert (m U Vf ins P mid S : L)
    (hG : U ++ Vf = P ++ (m ++ (mid ++ (m ++ S)))) :
    occursIn m (U ++ (ins ++ Vf)) = true := by
  rcases List.append_eq_append_iff.1 hG.symm with ⟨a, hU, ha⟩ | ⟨c', hP, hVf⟩
  · rcases List.append_eq_append_iff.1 ha with ⟨a', ha2, hVf⟩ | ⟨c2, hm, hVf⟩
    · -- the first copy of m lies wholly inside U
      have h1 : occursIn m U = true :=
        (occursIn_iff m U).2 ⟨P, a', by rw [hU, ha2]; simp⟩
      exact occursIn_appendRight m U (ins ++ Vf) h1
    · -- U ends inside the first copy: the second copy lies wholly inside Vf
      have h1 : occursIn m Vf = true :=
        (occursIn_iff m Vf).2 ⟨c2 ++ mid, S, by rw [hVf]; simp⟩
      exact occursIn_appendLeft m U (ins ++ Vf) (occursIn_appendLeft m ins Vf h1)
  · -- the whole double-occurrence lies inside Vf
    have h1 : occursIn m Vf = true :=
      (occursIn_iff m Vf).2 ⟨c', mid ++ (m ++ S), by rw [hVf]; simp⟩
    exact occursIn_appendLeft m U (ins ++ Vf) (occursIn_appendLeft m ins Vf h1)

theorem marker_in_stepB_of_dbl (G : L) (hd : dblIn marker G) :
    occursIn marker (stepB G) = true := by
  obtain ⟨u, v, w, hG⟩ := hd
  rcases stepB_cases G with hid | ⟨U, ws, _, hGeq, hout⟩ | ⟨U, ws, _, hGeq, hout⟩
    | ⟨U, tail, _, hGeq, hout⟩
  · rw [hid]
    exact (occursIn_iff marker G).2 ⟨u, v ++ (marker ++ w), by rw [hG]; simp⟩
  · rw [hout]
    exact dbl_insert marker U _ insW u v w (hGeq.symm.trans hG)
  · rw [hout]
    exact dbl_insert marker U _ insW u v w (hGeq.symm.trans hG)
  · rw [hout]
    exact dbl_insert marker U _ extIns u v w (hGeq.symm.trans hG)

def tailT : L → Prop := fun rest => occursIn [']'] rest = true

def tailTrue : L → Prop := fun _ => True

theorem attTranspile_some_shape (s : L) (q : L × L × L × L)
    (h : attTranspile s = some q) :
    ∃ w1 w2 rest, s = litT ++ (w1 ++ (':' :: (w2 ++ ('[' :: rest))))
      ∧ allWs w1 = true ∧ allWs w2 = true ∧ occursIn [']'] rest = true := by
  unfold attTranspile at h
  cases h1 : stripPre litT s with
  | none => rw [h1] at h; exact Option.noConfusion h
  | some r1 =>
  rw [h1] at h; dsimp only at h
  cases h2 : stripPre [':'] (dropWs r1) with
  | none => rw [h2] at h; exact Option.noConfusion h
  | some r2 =>
  rw [h2] at h; dsimp only at h
  cases h3 : stripPre ['['] (dropWs r2) with
  | none => rw [h3] at h; exact Option.noConfusion h
  | some r3 =>
  rw [h3] at h; dsimp only at h
  cases h4 : findFirst [']'] r3 with
  | none => rw [h4] at h; exact Option.noConfusion h
  | some p =>
  obtain ⟨cap, rest0⟩ := p
  refine ⟨takeWs r1, takeWs r2, r3, ?_, allWs_takeWs r1, allWs_takeWs r2, ?_⟩
  · have hs : s = litT ++ r1 := (stripPre_iff _ _ _).1 h1
    rw [← takeWs_append_dropWs r1, (stripPre_iff _ _ _).1 h2] at hs
    rw [← takeWs_append_dropWs r2, (stripPre_iff _ _ _).1 h3] at hs
    rw [hs]
    simp
  · exact (occursIn_iff _ _).2 ⟨cap, rest0, by
      rw [findFirst_sound [']'] r3 cap rest0 h4]⟩

theorem attTranspile_shape_ne (w1 w2 rest : L)
    (hw1 : allWs w1 = true) (hw2 : allWs w2 = true)
    (hocc : occursIn [']'] rest = true) :
    attTranspile (litT ++ (w1 ++ (':' :: (w2 ++ ('[' :: rest))))) ≠ none := by
  unfold attTranspile
  rw [show stripPre litT (litT ++ (w1 ++ (':' :: (w2 ++ ('[' :: rest)))))
      = some (w1 ++ (':' :: (w2 ++ ('[' :: rest)))) from (stripPre_iff _ _ _).2 rfl]
  dsimp only
  rw [show dropWs (w1 ++ (':' :: (w2 ++ ('[' :: rest)))) = ':' :: (w2 ++ ('[' :: rest)) by
    rw [dropWs_allWs_append _ _ hw1]; exact dropWs_cons_notWs _ _ (by decide)]
  rw [show stripPre [':'] (':' :: (w2 ++ ('[' :: rest))) = some (w2 ++ ('[' :: rest))
      from (stripPre_iff _ _ _).2 rfl]
  dsimp only
  rw [show dropWs (w2 ++ ('[' :: rest)) = '[' :: rest by
    rw [dropWs_allWs_append _ _ hw2]; exact dropWs_cons_notWs _ _ (by decide)]
  rw [show stripPre ['['] ('[' :: rest) = some rest from (stripPre_iff _ _ _).2 rfl]
  dsimp only
  cases h4 : findFirst [']'] rest with
  | none =>
    obtain ⟨a, b, hab⟩ := (occursIn_iff _ _).1 hocc
    exact absurd hab (findFirst_none [']'] rest h4 a b)
  | some p => simp

theorem matchTranspile_some_shape (c : L) (p : L × (L × L × L × L))
    (h : matchTranspile c = some p) : Shape2Occ litT ':' '[' tailT c := by
  obtain ⟨pre, q⟩ := p
  obtain ⟨suf, hsplit, hatt⟩ := scanFirst_sound attTranspile c pre q h
  obtain ⟨w1, w2, rest, hsuf, hw1, hw2, hocc⟩ := attTranspile_some_shape suf q hatt
  exact ⟨pre, w1, w2, rest, by rw [hsplit, hsuf], hw1, hw2, hocc⟩

theorem matchTranspile_ne_of_shape (c : L) (hS : Shape2Occ litT ':' '[' tailT c) :
    matchTranspile c ≠ none := by
  obtain ⟨x, w1, w2, rest, hc, hw1, hw2, hocc⟩ := hS
  intro hnone
  exact attTranspile_shape_ne w1 w2 rest hw1 hw2 hocc
    ((scanFirst_none_iff attTranspile c).1 hnone x _ hc)

theorem attModuleExports_some_shape (s : L) (q : L × L × L)
    (h : attModuleExports s = some q) :
    ∃ w1 w2 rest, s = litM ++ (w1 ++ ('=' :: (w2 ++ ('\x7b' :: rest))))
      ∧ allWs w1 = true ∧ allWs w2 = true := by
  unfold attModuleExports at h
  cases h1 : stripPre litM s with
  | none => rw [h1] at h; exact Option.noConfusion h
  | some r1 =>
  rw [h1] at h; dsimp only at h
  cases h2 : stripPre ['='] (dropWs r1) with
  | none => rw [h2] at h; exact Option.noConfusion h
  | some r2 =>
  rw [h2] at h; dsimp only at h
  cases h3 : stripPre ['\x7b'] (dropWs r2) with
  | none => rw [h3] at h; exact Option.noConfusion h
  | some r3 =>
  refine ⟨takeWs r1, takeWs r2, r3, ?_, allWs_takeWs r1, allWs_takeWs r2⟩
  have hs : s = litM ++ r1 := (stripPre_iff _ _ _).1 h1
  rw [← takeWs_append_dropWs r1, (stripPre_iff _ _ _).1 h2] at hs
  rw [← takeWs_append_dropWs r2, (stripPre_iff _ _ _).1 h3] at hs
  rw [hs]
  simp

theorem attModuleExports_shape_ne (w1 w2 rest : L)
    (hw1 : allWs w1 = true) (hw2 : allWs w2 = true) :
    attModuleExports (litM ++ (w1 ++ ('=' :: (w2 ++ ('\x7b' :: rest))))) ≠ none := by
  unfold attModuleExports
  rw [show stripPre litM (litM ++ (w1 ++ ('=' :: (w2 ++ ('\x7b' :: rest)))))
      = some (w1 ++ ('=' :: (w2 ++ ('\x7b' :: rest)))) from (stripPre_iff _ _ _).2 rfl]
  dsimp only
  rw [show dropWs (w1 ++ ('=' :: (w2 ++ ('\x7b' :: rest)))) = '=' :: (w2 ++ ('\x7b' :: rest)) by
    rw [dropWs_allWs_append _ _ hw1]; exact dropWs_cons_notWs _ _ (by decide)]
  rw [show stripPre ['='] ('=' :: (w2 ++ ('\x7b' :: rest))) = some (w2 ++ ('\x7b' :: rest))
      from (stripPre_iff _ _ _).2 rfl]
  dsimp only
  rw [show dropWs (w2 ++ ('\x7b' :: rest)) = '\x7b' :: rest by
    rw [dropWs_allWs_append _ _ hw2]; exact dropWs_cons_notWs _ _ (by decide)]
  rw [show stripPre ['\x7b'] ('\x7b' :: rest) = some rest from (stripPre_iff _ _ _).2 rfl]
  simp

theorem matchModuleExports_some_shape (c : L) (p : L × (L × L × L))
    (h : matchModuleExports c = some p) : Shape2Occ litM '=' '\x7b' tailTrue c := by
  obtain ⟨pre, q⟩ := p
  obtain ⟨suf, hsplit, hatt⟩ := scanFirst_sound attModuleExports c pre q h
  obtain ⟨w1, w2, rest, hsuf, hw1, hw2⟩ := attModuleExports_some_shape suf q hatt
  exact ⟨pre, w1, w2, rest, by rw [hsplit, hsuf], hw1, hw2, trivial⟩

theorem matchModuleExports_ne_of_shape (c : L) (hS : Shape2Occ litM '=' '\x7b' tailTrue c) :
    matchModuleExports c ≠ none := by
  obtain ⟨x, w1, w2, rest, hc, hw1, hw2, _⟩ := hS
  intro hnone
  exact attModuleExports_shape_ne w1 w2 rest hw1 hw2
    ((scanFirst_none_iff attModuleExports c).1 hnone x _ hc)

theorem attExportDefault_some_shape (s : L) (q : L × L)
    (h : attExportDefault s = some q) :
    ∃ w1 rest, s = litE ++ (w1 ++ ('\x7b' :: rest)) ∧ allWs w1 = true := by
  unfold attExportDefault at h
  cases h1 : stripPre litE s with
  | none => rw [h1] at h; exact Option.noConfusion h
  | some r1 =>
  rw [h1] at h; dsimp only at h
  cases h2 : stripPre ['\x7b'] (dropWs r1) with
  | none => rw [h2] at h; exact Option.noConfusion h
  | some r2 =>
  refine ⟨takeWs r1, r2, ?_, allWs_takeWs r1⟩
  have hs : s = litE ++ r1 := (stripPre_iff _ _ _).1 h1
  rw [← takeWs_append_dropWs r1, (stripPre_iff _ _ _).1 h2] at hs
  rw [hs]
  simp

theorem attExportDefault_shape_ne (w1 rest : L) (hw1 : allWs w1 = true) :
    attExportDefault (litE ++ (w1 ++ ('\x7b' :: rest))) ≠ none := by
  unfold attExportDefault
  rw [show stripPre litE (litE ++ (w1 ++ ('\x7b' :: rest)))
      = some (w1 ++ ('\x7b' :: rest)) from (stripPre_iff _ _ _).2 rfl]
  dsimp only
  rw [show dropWs (w1 ++ ('\x7b' :: rest)) = '\x7b' :: rest by
    rw [dropWs_allWs_append _ _ hw1]; exact dropWs_cons_notWs _ _ (by decide)]
  rw [show stripPre ['\x7b'] ('\x7b' :: rest) = some rest from (stripPre_iff _ _ _).2 rfl]
  simp

theorem matchExportDefault_some_shape (c : L) (p : L × (L × L))
    (h : matchExportDefault c = some p) : Shape1Occ litE '\x7b' tailTrue c := by
  obtain ⟨pre, q⟩ := p
  obtain ⟨suf, hsplit, hatt⟩ := scanFirst_sound attExportDefault c pre q h
  obtain ⟨w1, rest, hsuf, hw1⟩ := attExportDefault_some_shape suf q hatt
  exact ⟨pre, w1, rest, by rw [hsplit, hsuf], hw1, trivial⟩

theorem matchExportDefault_ne_of_shape (c : L) (hS : Shape1Occ litE '\x7b' tailTrue c) :
    matchExportDefault c ≠ none := by
  obtain ⟨x, w1, rest, hc, hw1, _⟩ := hS
  intro hnone
  exact attExportDefault_shape_ne w1 rest hw1
    ((scanFirst_none_iff attExportDefault c).1 hnone x _ hc)

theorem sufNotPre_single (c : Char) (ins : L) : sufNotPre [c] ins = true := by
  simp [sufNotPre]

theorem preNotSuf_single (c : Char) (ins : L) : preNotSuf [c] ins = true := by
  simp [preNotSuf]

/-- Inserting `ins` at an interior cut neither creates nor destroys an
occurrence of `pat`, provided `pat` cannot overlap `ins` and cannot
straddle the start of `V0`. -/
theorem occursIn_cut_eq (pat U ins V0 b : L)
    (hLen : pat.length ≤ ins.length) (hD1 : occursIn pat ins = false)
    (hD2 : sufNotPre pat ins = true) (hD3 : preNotSuf pat ins = true)
    (hstrad : noStradV pat V0 = true) :
    occursIn pat (U ++ (ins ++ (V0 ++ b))) = occursIn pat (U ++ (V0 ++ b)) := by
  cases hR : occursIn pat (U ++ (V0 ++ b)) with
  | true =>
    have h2 := occursIn_insert_intro pat U ins V0 b hstrad hR
    rw [List.append_assoc] at h2
    exact h2
  | false =>
    cases hL : occursIn pat (U ++ (ins ++ (V0 ++ b))) with
    | false => rfl
    | true =>
      have hL' : occursIn pat (U ++ ins ++ (V0 ++ b)) = true := by
        rw [List.append_assoc]; exact hL
      have := occursIn_insert_transfer pat U ins (V0 ++ b) hLen hD1 hD2 hD3 hL'
      rw [this] at hR
      exact hR

theorem occursIn_cut_false (pat U ins V : L)
    (hLen : pat.length ≤ ins.length) (hD1 : occursIn pat ins = false)
    (hD2 : sufNotPre pat ins = true) (hD3 : preNotSuf pat ins = true)
    (hF : occursIn pat (U ++ V) = false) :
    occursIn pat (U ++ (ins ++ V)) = false := by
  cases hL : occursIn pat (U ++ (ins ++ V)) with
  | false => rfl
  | true =>
    have hL' : occursIn pat (U ++ ins ++ V) = true := by
      rw [List.append_assoc]; exact hL
    have := occursIn_insert_transfer pat U ins V hLen hD1 hD2 hD3 hL'
    rw [this] at hF
    exact hF

theorem stepB_id_of_both (c : L) (h1 : occursIn (strL "webpack") c = true)
    (h2 : occursIn (strL "externals") c = true) : stepB c = c := by
  unfold stepB
  rw [if_neg (by simp [h1]), if_neg (by simp [h2])]

theorem matchTranspile_none_cut (U ins V : L)
    (hLen : litT.length ≤ ins.length) (hD1 : occursIn litT ins = false)
    (hD2 : sufNotPre litT ins = true) (hD3 : preNotSuf litT ins = true)
    (hfn1 : insFirstNonWsNe ins ':' = true) (hfn2 : insFirstNonWsNe ins '[' = true)
    (hbLen : ([']'] : L).length ≤ ins.length) (hbD1 : occursIn [']'] ins = false)
    (hnone : matchTranspile (U ++ V) = none) :
    matchTranspile (U ++ (ins ++ V)) = none := by
  cases hsome : matchTranspile (U ++ (ins ++ V)) with
  | none => rfl
  | some p =>
    exfalso
    have hS := matchTranspile_some_shape _ p hsome
    have htail : ∀ u4 : L, tailT (u4 ++ (ins ++ V)) → tailT (u4 ++ V) := by
      intro u4 h
      have h' : occursIn [']'] (u4 ++ ins ++ V) = true := by
        rw [List.append_assoc]; exact h
      exact occursIn_insert_transfer [']'] u4 ins V hbLen hbD1
        (sufNotPre_single ']' ins) (preNotSuf_single ']' ins) h'
    have hS2 := shape2Occ_transfer litT ':' '[' tailT U ins V hLen hD1 hD2 hD3
      (by decide) (by decide) hfn1 hfn2 htail hS
    exact matchTranspile_ne_of_shape _ hS2 hnone

theorem matchModuleExports_none_cut (U ins V : L)
    (hLen : litM.length ≤ ins.length) (hD1 : occursIn litM ins = false)
    (hD2 : sufNotPre litM ins = true) (hD3 : preNotSuf litM ins = true)
    (hfn1 : insFirstNonWsNe ins '=' = true) (hfn2 : insFirstNonWsNe ins '\x7b' = true)
    (hnone : matchModuleExports (U ++ V) = none) :
    matchModuleExports (U ++ (ins ++ V)) = none := by
  cases hsome : matchModuleExports (U ++ (ins ++ V)) with
  | none => rfl
  | some p =>
    exfalso
    have hS := matchModuleExports_some_shape _ p hsome
    have hS2 := shape2Occ_transfer litM '=' '\x7b' tailTrue U ins V hLen hD1 hD2 hD3
      (by decide) (by decide) hfn1 hfn2 (fun _ _ => trivial) hS
    exact matchModuleExports_ne_of_shape _ hS2 hnone

theorem matchExportDefault_none_cut (U ins V : L)
    (hLen : litE.length ≤ ins.length) (hD1 : occursIn litE ins = false)
    (hD2 : sufNotPre litE ins = true) (hD3 : preNotSuf litE ins = true)
    (hfn1 : insFirstNonWsNe ins '\x7b' = true)
    (hnone : matchExportDefault (U ++ V) = none) :
    matchExportDefault (U ++ (ins ++ V)) = none := by
  cases hsome : matchExportDefault (U ++ (ins ++ V)) with
  | none => rfl
  | some p =>
    exfalso
    have hS := matchExportDefault_some_shape _ p hsome
    have hS2 := shape1Occ_transfer litE '\x7b' tailTrue U ins V hLen hD1 hD2 hD3
      (by decide) hfn1 (fun _ _ => trivial) hS
    exact matchExportDefault_ne_of_shape _ hS2 hnone

/-- If `stepA` fixed marker-free content `U ++ (V0 ++ b)`, it also fixes the
content with `ins` inserted at the cut, provided the stepA literals cannot
overlap `ins` or straddle the start of `V0`. -/
theorem stepA_id_cut (U ins V0 b : L)
    (hLenT : litT.length ≤ ins.length) (hD1T : occursIn litT ins = false)
    (hD2T : sufNotPre litT ins = true) (hD3T : preNotSuf litT ins = true)
    (hLenM : litM.length ≤ ins.length) (hD1M : occursIn litM ins = false)
    (hD2M : sufNotPre litM ins = true) (hD3M : preNotSuf litM ins = true)
    (hLenE : litE.length ≤ ins.length) (hD1E : occursIn litE ins = false)
    (hD2E : sufNotPre litE ins = true) (hD3E : preNotSuf litE ins = true)
    (hfnColon : insFirstNonWsNe ins ':' = true) (hfnLbk : insFirstNonWsNe ins '[' = true)
    (hfnEq : insFirstNonWsNe ins '=' = true) (hfnLbc : insFirstNonWsNe ins '\x7b' = true)
    (hbLen : ([']'] : L).length ≤ ins.length) (hbD1 : occursIn [']'] ins = false)
    (hsT : noStradV litT V0 = true) (hsM : noStradV litM V0 = true)
    (hsE : noStradV litE V0 = true)
    (hgF : occursIn marker (U ++ (V0 ++ b)) = false)
    (hfix : stepA (U ++ (V0 ++ b)) = U ++ (V0 ++ b)) :
    stepA (U ++ (ins ++ (V0 ++ b))) = U ++ (ins ++ (V0 ++ b)) := by
  have hTC := occursIn_cut_eq litT U ins V0 b hLenT hD1T hD2T hD3T hsT
  have hMC := occursIn_cut_eq litM U ins V0 b hLenM hD1M hD2M hD3M hsM
  have hEC := occursIn_cut_eq litE U ins V0 b hLenE hD1E hD2E hD3E hsE
  unfold stepA at hfix
  by_cases hT : occursIn litT (U ++ (V0 ++ b)) = true
  · rw [if_pos hT] at hfix
    cases hm : matchTranspile (U ++ (V0 ++ b)) with
    | some p =>
      exfalso
      obtain ⟨pre, w1, w2, cap, rest⟩ := p
      rw [hm] at hfix
      dsimp only at hfix
      obtain ⟨u, v, w, hQ⟩ := dblIn_transpileReplacement cap
      have hmk : occursIn marker (U ++ (V0 ++ b)) = true := by
        rw [← hfix]
        exact occursIn_appendLeft _ pre _ (occursIn_appendRight _ _ rest
          ((occursIn_iff _ _).2 ⟨u, v ++ (marker ++ w), by rw [hQ]; simp⟩))
      rw [hmk] at hgF
      exact Bool.noConfusion hgF
    | none =>
      unfold stepA
      rw [if_pos (show occursIn litT (U ++ (ins ++ (V0 ++ b))) = true by rw [hTC]; exact hT)]
      rw [matchTranspile_none_cut U ins (V0 ++ b) hLenT hD1T hD2T hD3T hfnColon hfnLbk
        hbLen hbD1 hm]
  · have hTf : occursIn litT (U ++ (V0 ++ b)) = false := by simpa using hT
    rw [if_neg hT] at hfix
    by_cases hM : occursIn litM (U ++ (V0 ++ b)) = true
    · rw [if_pos hM] at hfix
      cases hm : matchModuleExports (U ++ (V0 ++ b)) with
      | some p =>
        exfalso
        obtain ⟨pre, w1, w2, rest⟩ := p
        rw [hm] at hfix
        dsimp only at hfix
        obtain ⟨u, v, w, hQ⟩ := dblIn_modExpReplacement
        have hmk : occursIn marker (U ++ (V0 ++ b)) = true := by
          rw [← hfix]
          exact occursIn_appendLeft _ pre _ (occursIn_appendRight _ _ rest
            ((occursIn_iff _ _).2 ⟨u, v ++ (marker ++ w), by rw [hQ]; simp⟩))
        rw [hmk] at hgF
        exact Bool.noConfusion hgF
      | none =>
        unfold stepA
        rw [if_neg (show ¬occursIn litT (U ++ (ins ++ (V0 ++ b))) = true by
          rw [hTC, hTf]; simp)]
        rw [if_pos (show occursIn litM (U ++ (ins ++ (V0 ++ b))) = true by rw [hMC]; exact hM)]
        rw [matchModuleExports_none_cut U ins (V0 ++ b) hLenM hD1M hD2M hD3M hfnEq hfnLbc hm]
    · have hMf : occursIn litM (U ++ (V0 ++ b)) = false := by simpa using hM
      rw [if_neg hM] at hfix
      by_cases hE : occursIn litE (U ++ (V0 ++ b)) = true
      · rw [if_pos hE] at hfix
        cases hm : matchExportDefault (U ++ (V0 ++ b)) with
        | some p =>
          exfalso
          obtain ⟨pre, w, rest⟩ := p
          rw [hm] at hfix
          dsimp only at hfix
          obtain ⟨u, v, ww, hQ⟩ := dblIn_expDefReplacement
          have hmk : occursIn marker (U ++ (V0 ++ b)) = true := by
            rw [← hfix]
            exact occursIn_appendLeft _ pre _ (occursIn_appendRight _ _ rest
              ((occursIn_iff _ _).2 ⟨u, v ++ (marker ++ ww), by rw [hQ]; simp⟩))
          rw [hmk] at hgF
          exact Bool.noConfusion hgF
        | none =>
          unfold stepA
          rw [if_neg (show ¬occursIn litT (U ++ (ins ++ (V0 ++ b))) = true by
            rw [hTC, hTf]; simp)]
          rw [if_neg (show ¬occursIn litM (U ++ (ins ++ (V0 ++ b))) = true by
            rw [hMC, hMf]; simp)]
          rw [if_pos (show occursIn litE (U ++ (ins ++ (V0 ++ b))) = true by rw [hEC]; exact hE)]
          rw [matchExportDefault_none_cut U ins (V0 ++ b) hLenE hD1E hD2E hD3E hfnLbc hm]
      · exfalso
        rw [if_neg hE] at hfix
        obtain ⟨u, v, w, hQ⟩ := dblIn_fallbackConfig
        have hmk : occursIn marker (U ++ (V0 ++ b)) = true := by
          rw [← hfix]
          exact (occursIn_iff _ _).2 ⟨u, v ++ (marker ++ w), by rw [hQ]; simp⟩
        rw [hmk] at hgF
        exact Bool.noConfusion hgF

/-- `updateNextConfig` is idempotent on content: a second run recomputes the
same bytes (even though the marker guard need not fire). -/
theorem updateNextConfig_content_idem (F : L) :
    (updateNextConfig (updateNextConfig F).1).1 = (updateNextConfig F).1 := by
  by_cases hg : occursIn marker F = true
  · simp [updateNextConfig, hg]
  · have hgF : occursIn marker F = false := by simpa using hg
    have h1 : (updateNextConfig F).1 = stepB (stepA F) := by simp [updateNextConfig, hgF]
    rcases stepA_cases F with hA | hdbl
    · rcases stepB_cases F with hB | ⟨U, ws, hws, hGeq, hout⟩ | ⟨U, ws, hws, hGeq, hout⟩
        | ⟨U, tail, hocU, hGeq, hout⟩
      · rw [h1, hA, hB]
        simp [updateNextConfig, hgF, hA, hB]
      · rw [h1, hA, hout]
        have hgC : occursIn marker (U ++ (insW ++ (strL "\x7d;" ++ ws))) = false :=
          occursIn_cut_false marker U insW _ (by decide) (by decide) (by decide) (by decide)
            (by rw [← hGeq]; exact hgF)
        have hA2 := stepA_id_cut U insW (strL "\x7d;") ws (by decide) (by decide) (by decide)
          (by decide) (by decide) (by decide) (by decide) (by decide) (by decide) (by decide)
          (by decide) (by decide) (by decide) (by decide) (by decide) (by decide) (by decide)
          (by decide) (by decide) (by decide) (by decide)
          (by rw [← hGeq]; exact hgF) (by rw [← hGeq]; exact hA)
        have hwp : occursIn (strL "webpack") (U ++ (insW ++ (strL "\x7d;" ++ ws))) = true :=
          occursIn_appendLeft _ U _ (occursIn_appendRight _ insW _ (by decide))
        have hex : occursIn (strL "externals") (U ++ (insW ++ (strL "\x7d;" ++ ws))) = true :=
          occursIn_appendLeft _ U _ (occursIn_appendRight _ insW _ (by decide))
        simp [updateNextConfig, hgC, hA2, stepB_id_of_both _ hwp hex]
      · rw [h1, hA, hout]
        have hgC : occursIn marker (U ++ (insW ++ (['\x7d'] ++ ws))) = false :=
          occursIn_cut_false marker U insW _ (by decide) (by decide) (by decide) (by decide)
            (by rw [← hGeq]; exact hgF)
        have hA2 := stepA_id_cut U insW ['\x7d'] ws (by decide) (by decide) (by decide)
          (by decide) (by decide) (by decide) (by decide) (by decide) (by decide) (by decide)
          (by decide) (by decide) (by decide) (by decide) (by decide) (by decide) (by decide)
          (by decide) (by decide) (by decide) (by decide)
          (by rw [← hGeq]; exact hgF) (by rw [← hGeq]; exact hA)
        have hwp : occursIn (strL "webpack") (U ++ (insW ++ (['\x7d'] ++ ws))) = true :=
          occursIn_appendLeft _ U _ (occursIn_appendRight _ insW _ (by decide))
        have hex : occursIn (strL "externals") (U ++ (insW ++ (['\x7d'] ++ ws))) = true :=
          occursIn_appendLeft _ U _ (occursIn_appendRight _ insW _ (by decide))
        have hB2 := stepB_id_of_both _ hwp hex
        simp only [List.singleton_append] at hgC hA2 hB2
        simp [updateNextConfig, hgC, hA2, hB2]
      · rw [h1, hA, hout]
        have hgC : occursIn marker (U ++ (extIns ++ (rcLit ++ tail))) = false :=
          occursIn_cut_false marker U extIns _ (by decide) (by decide) (by decide) (by decide)
            (by rw [← hGeq]; exact hgF)
        have hA2 := stepA_id_cut U extIns rcLit tail (by decide) (by decide) (by decide)
          (by decide) (by decide) (by decide) (by decide) (by decide) (by decide) (by decide)
          (by decide) (by decide) (by decide) (by decide) (by decide) (by decide) (by decide)
          (by decide) (by decide) (by decide) (by decide)
          (by rw [← hGeq]; exact hgF) (by rw [← hGeq]; exact hA)
        have hwp : occursIn (strL "webpack") (U ++ (extIns ++ (rcLit ++ tail))) = true :=
          occursIn_appendRight _ U _ hocU
        have hex : occursIn (strL "externals") (U ++ (extIns ++ (rcLit ++ tail))) = true :=
          occursIn_appendLeft _ U _ (occursIn_appendRight _ extIns _ (by decide))
        simp [updateNextConfig, hgC, hA2, stepB_id_of_both _ hwp hex]
    · have hmk : occursIn marker (stepB (stepA F)) = true := marker_in_stepB_of_dbl _ hdbl
      rw [h1]
      simp [updateNextConfig, hmk]

/-- C1 counterexample input: a Next.js config that mentions
"transpilePackages" only in a comment, so stepA matches nothing and the
written content gains only the webpack block — no marker token. -/
def nextCfgC1 : L := strL "// transpilePackages\nmodule.exports = \x7b\n  reactStrictMode: true,\n\x7d;\n"

theorem findLast_none (pat : L) : ∀ h : L,
    findLast pat h = none → ∀ a b : L, h ≠ a ++ pat ++ b := by
  intro h
  induction h with
  | nil =>
    intro hf a b
    by_cases hp : pat = []
    · subst hp; simp [findLast] at hf
    · rw [findLast, if_neg hp] at hf
      intro hab
      have h2 : a ++ (pat ++ b) = [] := by rw [← List.append_assoc]; exact hab.symm
      exact hp (List.append_eq_nil.1 (List.append_eq_nil.1 h2).2).1
  | cons c t ih =>
    intro hf a b hab
    rw [findLast] at hf
    cases hfl : findLast pat t with
    | some p => rw [hfl] at hf; exact Option.noConfusion hf
    | none =>
      rw [hfl] at hf
      dsimp only at hf
      by_cases hpre : hasPre pat (c :: t) = true
      · rw [if_pos hpre] at hf; exact Option.noConfusion hf
      · cases a with
        | nil =>
          simp only [List.nil_append] at hab
          exact hpre ((hasPre_iff pat (c :: t)).2 ⟨b, by rw [hab]⟩)
        | cons a0 a' =>
          have : t = a' ++ pat ++ b := by
            have := hab
            simp only [List.cons_append] at this
            exact (List.cons.injEq .. ▸ this).2
          exact ih hfl a' b this

theorem termEnd_sound (t e rest : L) (h : termEnd t = some (e, rest)) :
    t = e ++ rest := by
  unfold termEnd at h
  split at h
  · have hpair := Option.some.inj h
    rw [Prod.mk.injEq] at hpair
    obtain ⟨he, hr⟩ := hpair
    subst he; subst hr; rfl
  · have hpair := Option.some.inj h
    rw [Prod.mk.injEq] at hpair
    obtain ⟨he, hr⟩ := hpair
    subst he; subst hr; rfl
  · have hpair := Option.some.inj h
    rw [Prod.mk.injEq] at hpair
    obtain ⟨he, hr⟩ := hpair
    subst he; subst hr; rfl
  · split at h
    · have hpair := Option.some.inj h
      rw [Prod.mk.injEq] at hpair
      obtain ⟨he, hr⟩ := hpair
      subst he; subst hr; rfl
    · exact Option.noConfusion h

theorem importEnd_sound (semi : Bool) : ∀ r e rest : L,
    importEnd semi r = some (e, rest) → r = e ++ rest := by
  intro r
  induction r with
  | nil =>
    intro e rest h
    unfold importEnd at h
    cases semi with
    | true => exact Option.noConfusion h
    | false =>
      have hpair := Option.some.inj h
      rw [Prod.mk.injEq] at hpair
      obtain ⟨he, hr⟩ := hpair
      subst he; subst hr; rfl
  | cons c t ih =>
    intro e rest h
    unfold importEnd at h
    split at h
    · -- c = ';'
      rename_i hc
      cases hte : termEnd t with
      | some p =>
        obtain ⟨e0, r0⟩ := p
        rw [hte] at h
        dsimp only at h
        have hpair := Option.some.inj h
        rw [Prod.mk.injEq] at hpair
        obtain ⟨he, hr⟩ := hpair
        subst he; subst hr
        rw [hc]
        have := termEnd_sound t e0 r0 hte
        rw [this]
        rfl
      | none =>
        rw [hte] at h
        dsimp only at h
        cases hie : importEnd semi t with
        | none => rw [hie] at h; exact Option.noConfusion h
        | some p =>
          rw [hie] at h
          dsimp only [Option.map] at h
          have hpair := Option.some.inj h
          rw [Prod.mk.injEq] at hpair
          obtain ⟨he, hr⟩ := hpair
          subst hr
          rw [← he]
          have := ih p.1 p.2 (by rw [hie])
          rw [List.cons_append, ← this]
    · -- c ≠ ';'
      cases semi with
      | true =>
        rw [if_pos rfl] at h
        split at h
        · exact Option.noConfusion h
        · cases hie : importEnd true t with
          | none => rw [hie] at h; exact Option.noConfusion h
          | some p =>
            rw [hie] at h
            dsimp only [Option.map] at h
            have hpair := Option.some.inj h
            rw [Prod.mk.injEq] at hpair
            obtain ⟨he, hr⟩ := hpair
            subst hr
            rw [← he]
            have := ih p.1 p.2 (by rw [hie])
            rw [List.cons_append, ← this]
      | false =>
        rw [if_neg (by simp)] at h
        cases hte : termEnd (c :: t) with
        | some p =>
          obtain ⟨e0, r0⟩ := p
          rw [hte] at h
          dsimp only at h
          have hpair := Option.some.inj h
          rw [Prod.mk.injEq] at hpair
          obtain ⟨he, hr⟩ := hpair
          subst he; subst hr
          exact termEnd_sound _ _ _ hte
        | none =>
          rw [hte] at h
          dsimp only at h
          cases hie : importEnd false t with
          | none => rw [hie] at h; exact Option.noConfusion h
          | some p =>
            rw [hie] at h
            dsimp only [Option.map] at h
            have hpair := Option.some.inj h
            rw [Prod.mk.injEq] at hpair
            obtain ⟨he, hr⟩ := hpair
            subst hr
            rw [← he]
            have := ih p.1 p.2 (by rw [hie])
            rw [List.cons_append, ← this]

theorem attImport_sound (semi : Bool) (s m rest : L)
    (h : attImport semi s = some (m, rest)) : s = m ++ rest := by
  unfold attImport at h
  cases h1 : stripPre (strL "import") s with
  | none => rw [h1] at h; exact Option.noConfusion h
  | some r =>
    rw [h1] at h
    dsimp only at h
    cases h2 : importEnd semi r with
    | none => rw [h2] at h; exact Option.noConfusion h
    | some p =>
      rw [h2] at h
      dsimp only [Option.map] at h
      have hpair := Option.some.inj h
      rw [Prod.mk.injEq] at hpair
      obtain ⟨he, hr⟩ := hpair
      subst hr
      rw [← he]
      have hso := (stripPre_iff _ _ _).1 h1
      rw [hso, importEnd_sound semi r p.1 p.2 (by rw [h2])]
      simp

theorem importMatchesGo_mem_occurs (semi : Bool) : ∀ (fuel : Nat) (atStart : Bool)
    (s m : L), m ∈ importMatchesGo semi fuel atStart s → ∃ a b, s = a ++ (m ++ b) := by
  intro fuel
  induction fuel with
  | zero => intro atStart s m hm; simp [importMatchesGo] at hm
  | succ f ih =>
    intro atStart s m hm
    cases s with
    | nil => simp [importMatchesGo] at hm
    | cons c t =>
      rw [importMatchesGo] at hm
      by_cases hst : atStart = true
      · rw [hst, if_pos rfl] at hm
        cases ha : attImport semi (c :: t) with
        | some p =>
          obtain ⟨m0, rest⟩ := p
          rw [ha] at hm
          dsimp only at hm
          rcases List.mem_cons.1 hm with hm0 | hmem
          · exact ⟨[], rest, by
              rw [hm0, List.nil_append]; exact attImport_sound semi _ _ _ ha⟩
          · obtain ⟨a, b, hab⟩ := ih (endsWithTerm m0) rest m hmem
            exact ⟨m0 ++ a, b, by
              rw [attImport_sound semi _ _ _ ha, hab]; simp⟩
        | none =>
          rw [ha] at hm
          dsimp only at hm
          obtain ⟨a, b, hab⟩ := ih (isLineTerm c) t m hm
          exact ⟨c :: a, b, by rw [hab, List.cons_append]⟩
      · rw [if_neg hst] at hm
        obtain ⟨a, b, hab⟩ := ih (isLineTerm c) t m hm
        exact ⟨c :: a, b, by rw [hab, List.cons_append]⟩

theorem getLast?_mem_own {α : Type} : ∀ (l : List α) (a : α), l.getLast? = some a → a ∈ l := by
  intro l
  induction l with
  | nil => intro a h; simp [List.getLast?] at h
  | cons x t ih =>
    intro a h
    cases t with
    | nil =>
      simp [List.getLast?] at h
      simp [h]
    | cons y t' =>
      rw [List.getLast?_cons_cons] at h
      exact List.mem_cons_of_mem x (ih a h)

/-- Whatever the import locator does, inserting a statement that carries the
token leaves the token present in the result. -/
theorem insertAfterImports_token (semi : Bool) (stmtMid stmtTop content tok : L)
    (hmid : occursIn tok stmtMid = true) (htop : occursIn tok stmtTop = true) :
    occursIn tok (insertAfterImports semi stmtMid stmtTop content) = true := by
  unfold insertAfterImports
  cases hgl : (importMatches semi content).getLast? with
  | none =>
    dsimp only
    exact occursIn_appendRight tok stmtTop content htop
  | some lastImport =>
    dsimp only
    cases hfl : findLast lastImport content with
    | none =>
      exfalso
      have hmem : lastImport ∈ importMatches semi content := getLast?_mem_own _ _ hgl
      obtain ⟨a, b, hab⟩ := importMatchesGo_mem_occurs semi _ _ _ _ hmem
      exact findLast_none lastImport content hfl a b (by rw [hab]; simp)
    | some p =>
      obtain ⟨a, b⟩ := p
      dsimp only
      exact occursIn_appendLeft _ a _ (occursIn_appendLeft _ lastImport _
        (occursIn_appendRight _ stmtMid b hmid))

/- ## VueFramework.updateMainFile (src/src/frameworks/vue/index.ts)

Guarded by "SolanaPlugin" / "solana/wallet"; inserts the plugin import
after the import section, then tries the Vue 3 patterns
(`/(const\s+app\s*=\s*createApp\s*\(.*?\))(.*?)(app\.mount)/s`,
`/(createApp\s*\(.*?\).*?)\.mount/s`) or the Vue 2 patterns
(`/(new\s+Vue\s*\(\s*\{)(.*?)(\}\s*\))/s`, `/(plugins\s*:\s*\[)(.*?)(\])/s`).
The warn branches do not return, so `fs.writeFile` runs even when no
anchor matched: the file is rewritten with the import injected. -/

def vueImportMid : L := strL "\nimport \x7b SolanaPlugin \x7d from \x27./solana/wallet\x27;\n"

def vueImportTop : L := strL "import \x7b SolanaPlugin \x7d from \x27./solana/wallet\x27;\n\n"

/-- Attempt of the Vue 3 pattern at the start of `s`: returns
(appCreation group, middlewareSection group).  The lazy `.*?\)` stops at
the first `)`; the lazy middleware group stops at the first "app.mount". -/
def attVueApp (s : L) : Option (L × L) :=
  match stripPre (strL "const") s with
  | none => none
  | some r1 =>
    if takeWs r1 = [] then none
    else
      match stripPre (strL "app") (dropWs r1) with
      | none => none
      | some r2 =>
        match stripPre ['='] (dropWs r2) with
        | none => none
        | some r3 =>
          match stripPre (strL "createApp") (dropWs r3) with
          | none => none
          | some r4 =>
            match stripPre ['('] (dropWs r4) with
            | none => none
            | some r5 =>
              match findFirst [')'] r5 with
              | none => none
              | some (x, r6) =>
                match findFirst (strL "app.mount") r6 with
                | none => none
                | some (y, _) =>
                  some (strL "const" ++ (takeWs r1 ++ (strL "app" ++ (takeWs r2 ++
                    (['='] ++ (takeWs r3 ++ (strL "createApp" ++ (takeWs r4 ++
                    (['('] ++ (x ++ [')'])))))))))
                    , y)

def matchVueApp (c : L) : Option (L × L) := (scanFirst attVueApp c).map (fun p => p.2)

/-- Attempt of the simpler Vue 3 pattern: returns the capture group (up to
but excluding ".mount"). -/
def attVueCreate (s : L) : Option L :=
  match stripPre (strL "createApp") s with
  | none => none
  | some r1 =>
    match stripPre ['('] (dropWs r1) with
    | none => none
    | some r2 =>
      match findFirst [')'] r2 with
      | none => none
      | some (x, r3) =>
        match findFirst (strL ".mount") r3 with
        | none => none
        | some (y, _) =>
          some (strL "createApp" ++ (takeWs r1 ++ (['('] ++ (x ++ ([')'] ++ y)))))

def matchVueCreate (c : L) : Option L := (scanFirst attVueCreate c).map (fun p => p.2)

/-- Attempt of `\}\s*\)` (the closer of the Vue 2 options object). -/
def attVueClose (t : L) : Option L :=
  match stripPre ['\x7d'] t with
  | none => none
  | some r =>
    match stripPre [')'] (dropWs r) with
    | none => none
    | some _ => some []

/-- Attempt of the Vue 2 pattern `new\s+Vue\s*\(\s*\{`: returns the
vueOptions capture group. -/
def attNewVue (s : L) : Option L :=
  match stripPre (strL "new") s with
  | none => none
  | some r1 =>
    if takeWs r1 = [] then none
    else
      match stripPre (strL "Vue") (dropWs r1) with
      | none => none
      | some r2 =>
        match stripPre ['('] (dropWs r2) with
        | none => none
        | some r3 =>
          match stripPre ['\x7b'] (dropWs r3) with
          | none => none
          | some r4 =>
            match scanFirst attVueClose r4 with
            | none => none
            | some (opts, _) => some opts

def matchNewVue (c : L) : Option L := (scanFirst attNewVue c).map (fun p => p.2)

/-- Attempt of `/(plugins\s*:\s*\[)(.*?)(\])/s`: returns
(pluginsStart group, pluginsList group). -/
def attPlugins (s : L) : Option (L × L) :=
  match stripPre (strL "plugins") s with
  | none => none
  | some r1 =>
    match stripPre [':'] (dropWs r1) with
    | none => none
    | some r2 =>
      match stripPre ['['] (dropWs r2) with
      | none => none
      | some r3 =>
        match findFirst [']'] r3 with
        | none => none
        | some (plist, _) =>
          some (strL "plugins" ++ (takeWs r1 ++ ([':'] ++ (takeWs r2 ++ ['[']))), plist)

def matchPlugins (c : L) : Option (L × L) := (scanFirst attPlugins c).map (fun p => p.2)

/-- `VueFramework.updateMainFile` on file content: returns
(content after the call, wrote, warned). -/
def vueUpdateMainFile (content : L) : L × Bool × Bool :=
  if occursIn (strL "SolanaPlugin") content || occursIn (strL "solana/wallet") content then
    (content, false, false)
  else
    let c1 := insertAfterImports false vueImportMid vueImportTop content
    if occursIn (strL "createApp(") c1 then
      match matchVueApp c1 with
      | some (appCreation, mid) =>
        if occursIn (strL "app.use(") mid then
          match findLast (strL "app.use(") mid with
          | none => (c1, true, false)
          | some (m0, m1) =>
            match findFirst [')'] m1 with
            | some (m1a, m1b) =>
              (jsReplaceStr c1 mid
                ((m0 ++ (strL "app.use(" ++ (m1a ++ [')'])))
                  ++ (strL "\napp.use(SolanaPlugin)" ++ m1b)), true, false)
            | none =>
              (jsReplaceStr c1 mid ([] ++ (strL "\napp.use(SolanaPlugin)" ++ mid)), true, false)
        else
          (jsReplaceStr c1 appCreation (appCreation ++ strL "\napp.use(SolanaPlugin)"),
            true, false)
      | none =>
        match matchVueCreate c1 with
        | some appCreation =>
          (jsReplaceStr c1 appCreation (appCreation ++ strL ".use(SolanaPlugin)"), true, false)
        | none => (c1, true, true)
    else if occursIn (strL "new Vue(") c1 then
      match matchNewVue c1 with
      | some vueOptions =>
        if occursIn (strL "plugins") vueOptions = false then
          (jsReplaceStr c1 vueOptions (vueOptions ++ strL "\n  plugins: [SolanaPlugin],"),
            true, false)
        else
          match matchPlugins vueOptions with
          | some (pStart, pList) =>
            (jsReplaceStr c1 (pStart ++ (pList ++ strL "]"))
              (pStart ++ ((if pList = [] then strL "SolanaPlugin"
                else pList ++ strL ", SolanaPlugin") ++ strL "]")), true, false)
          | none => (c1, true, true)
      | none => (c1, true, true)
    else (c1, true, true)

theorem vueUpdateMainFile_guard (c : L)
    (h : (occursIn (strL "SolanaPlugin") c || occursIn (strL "solana/wallet") c) = true) :
    vueUpdateMainFile c = (c, false, false) := by
  unfold vueUpdateMainFile
  rw [if_pos h]

/-- Every non-guarded run of the Vue patcher produces content carrying
"SolanaPlugin" (the injected import alone already carries it, and each
anchor rewrite re-inserts it). -/
theorem vueUpdateMainFile_token (F : L)
    (hg : ¬(occursIn (strL "SolanaPlugin") F || occursIn (strL "solana/wallet") F) = true) :
    occursIn (strL "SolanaPlugin") (vueUpdateMainFile F).1 = true := by
  have hc1 : occursIn (strL "SolanaPlugin")
      (insertAfterImports false vueImportMid vueImportTop F) = true :=
    insertAfterImports_token _ _ _ _ _ (by decide) (by decide)
  unfold vueUpdateMainFile
  rw [if_neg hg]
  dsimp only
  by_cases h2 : occursIn (strL "createApp(")
      (insertAfterImports false vueImportMid vueImportTop F) = true
  · rw [if_pos h2]
    cases hm : matchVueApp (insertAfterImports false vueImportMid vueImportTop F) with
    | some p =>
      obtain ⟨appCreation, mid⟩ := p
      dsimp only
      by_cases h3 : occursIn (strL "app.use(") mid = true
      · rw [if_pos h3]
        cases hfl : findLast (strL "app.use(") mid with
        | none => exact hc1
        | some q =>
          obtain ⟨m0, m1⟩ := q
          dsimp only
          cases hff : findFirst [')'] m1 with
          | some r =>
            obtain ⟨m1a, m1b⟩ := r
            dsimp only
            apply jsReplaceStr_keeps _ _ _ _ (by decide) (by decide) hc1
            exact occursIn_appendLeft _ _ _ (occursIn_appendRight _ _ m1b (by decide))
          | none =>
            dsimp only
            apply jsReplaceStr_keeps _ _ _ _ (by decide) (by decide) hc1
            exact occursIn_appendLeft _ _ _ (occursIn_appendRight _ _ mid (by decide))
      · rw [if_neg h3]
        apply jsReplaceStr_keeps _ _ _ _ (by decide) (by decide) hc1
        exact occursIn_appendLeft _ appCreation _ (by decide)
    | none =>
      dsimp only
      cases hm2 : matchVueCreate (insertAfterImports false vueImportMid vueImportTop F) with
      | some appCreation =>
        dsimp only
        apply jsReplaceStr_keeps _ _ _ _ (by decide) (by decide) hc1
        exact occursIn_appendLeft _ appCreation _ (by decide)
      | none => exact hc1
  · rw [if_neg h2]
    by_cases h4 : occursIn (strL "new Vue(")
        (insertAfterImports false vueImportMid vueImportTop F) = true
    · rw [if_pos h4]
      cases hm : matchNewVue (insertAfterImports false vueImportMid vueImportTop F) with
      | some vueOptions =>
        dsimp only
        by_cases h5 : occursIn (strL "plugins") vueOptions = false
        · rw [if_pos h5]
          apply jsReplaceStr_keeps _ _ _ _ (by decide) (by decide) hc1
          exact occursIn_appendLeft _ vueOptions _ (by decide)
        · rw [if_neg h5]
          cases hm2 : matchPlugins vueOptions with
          | some r =>
            obtain ⟨pStart, pList⟩ := r
            dsimp only
            apply jsReplaceStr_keeps _ _ _ _ (by decide) (by decide) hc1
            refine occursIn_appendLeft _ pStart _ (occursIn_appendRight _ _ _ ?_)
            by_cases h6 : pList = []
            · rw [if_pos h6]; decide
            · rw [if_neg h6]
              exact occursIn_appendLeft _ pList _ (by decide)
          | none => exact hc1
      | none => exact hc1
    · rw [if_neg h4]
      exact hc1

/-- The Vue patcher is idempotent, and its second application is stopped by
the guard token with no write. -/
theorem vueUpdateMainFile_idem (F : L) :
    vueUpdateMainFile ((vueUpdateMainFile F).1) = ((vueUpdateMainFile F).1, false, false) := by
  by_cases hg : (occursIn (strL "SolanaPlugin") F || occursIn (strL "solana/wallet") F) = true
  · have h1 := vueUpdateMainFile_guard F hg
    rw [h1]
    exact vueUpdateMainFile_guard F hg
  · have htok := vueUpdateMainFile_token F hg
    exact vueUpdateMainFile_guard _ (by rw [htok]; rfl)

/-- C2: the Vue main-file patcher violates non-destructive failure.  On
`"const x = 1;\n"` no anchor matches (no createApp, no new Vue), the
patcher warns — and still writes the file with the Solana import injected,
so the content after the patch attempt differs from the content before it.
(The warn branches of updateMainFile lack the `return` that every other
patcher's warn branch has, so `fs.writeFile` runs unconditionally.) -/
theorem claim_C2_nondestructive_failure_violated :
    (vueUpdateMainFile (strL "const x = 1;\n")).2.2 = true
    ∧ (vueUpdateMainFile (strL "const x = 1;\n")).2.1 = true
    ∧ (vueUpdateMainFile (strL "const x = 1;\n")).1 ≠ strL "const x = 1;\n"
    ∧ (vueUpdateMainFile (strL "const x = 1;\n")).1
        = strL "import \x7b SolanaPlugin \x7d from \x27./solana/wallet\x27;\n\nconst x = 1;\n" := by
  refine ⟨?_, ?_, ?_, ?_⟩ <;> decide

/- ## ReactFramework.updateEntryPoint (src/src/frameworks/vue/index.ts)

Guarded by "SolanaProvider"; inserts the provider import, wraps the root
component found by
`/(ReactDOM\.render\s*\(\s*<)(.*?)(\s*\/?\s*>\s*,\s*document\.getElementById)/`
or `/(createRoot.*?\)\.render\s*\(\s*<)(.*?)(\s*\/?\s*>\s*\))/` (no `s`
flag: the lazy groups cannot cross line terminators, while the `\s*` runs
can), and replaces the matched text by a template literal that embeds the
captured groups — so the replacement string passes through the
`$`-substitution of `String.prototype.replace`. -/

def reactImportMid : L := strL "\nimport \x7b SolanaProvider \x7d from \x27./solana/wallet\x27;\n"

def reactImportTop : L := strL "import \x7b SolanaProvider \x7d from \x27./solana/wallet\x27;\n\n"

/-- The `\/?\s*` step shared by the render-pattern closers: the optional
slash with its following whitespace run, and the remainder. -/
def slashPart (a : L) : L × L :=
  match a with
  | '/' :: a' => (['/'] ++ takeWs a', dropWs a')
  | _ => ([], a)

theorem slashPart_sound (a : L) : a = (slashPart a).1 ++ (slashPart a).2 := by
  cases a with
  | nil => rfl
  | cons c a' =>
    by_cases hc : c = '/'
    · subst hc
      show '/' :: a' = (['/'] ++ takeWs a') ++ dropWs a'
      rw [List.append_assoc, takeWs_append_dropWs]
      rfl
    · unfold slashPart
      split
      · rename_i heq
        exact absurd (List.cons.injEq .. ▸ heq).1 hc
      · rfl

/-- Match `\s*\/?\s*>\s*,\s*document\.getElementById` at the start of `t`:
(matched text, rest). -/
def attR11End (t : L) : Option (L × L) :=
  match stripPre ['>'] (slashPart (dropWs t)).2 with
  | none => none
  | some r =>
    match stripPre [','] (dropWs r) with
    | none => none
    | some r2 =>
      match stripPre (strL "document.getElementById") (dropWs r2) with
      | none => none
      | some r3 =>
        some (takeWs t ++ ((slashPart (dropWs t)).1 ++ (['>'] ++ (takeWs r ++ ([','] ++
          (takeWs r2 ++ strL "document.getElementById"))))), r3)

/-- The lazy group-2 scan of the React render patterns: consume
non-line-terminator characters until the end pattern matches. -/
def scanG2 (attEnd : L → Option (L × L)) : L → Option (L × L × L)
  | [] =>
    match attEnd [] with
    | some (sfx, rest) => some ([], sfx, rest)
    | none => none
  | c :: t =>
    match attEnd (c :: t) with
    | some (sfx, rest) => some ([], sfx, rest)
    | none =>
      if isLineTerm c then none
      else (scanG2 attEnd t).map (fun p => (c :: p.1, p.2.1, p.2.2))

/-- Attempt of the `ReactDOM.render` pattern: returns
(prefix group, app group, suffix group). -/
def attReactRender (s : L) : Option (L × L × L) :=
  match stripPre (strL "ReactDOM.render") s with
  | none => none
  | some r1 =>
    match stripPre ['('] (dropWs r1) with
    | none => none
    | some r2 =>
      match stripPre ['<'] (dropWs r2) with
      | none => none
      | some r3 =>
        match scanG2 attR11End r3 with
        | none => none
        | some (app, sfx, _) =>
          some (strL "ReactDOM.render" ++ (takeWs r1 ++ (['('] ++ (takeWs r2 ++ ['<']))),
            app, sfx)

def matchReactRender (c : L) : Option (L × L × L) :=
  (scanFirst attReactRender c).map (fun p => p.2)

/-- Match `\s*\/?\s*>\s*\)` at the start of `t`. -/
def attR12End (t : L) : Option (L × L) :=
  match stripPre ['>'] (slashPart (dropWs t)).2 with
  | none => none
  | some r =>
    match stripPre [')'] (dropWs r) with
    | none => none
    | some r2 =>
      some (takeWs t ++ ((slashPart (dropWs t)).1 ++ (['>'] ++ (takeWs r ++ [')']))), r2)

/-- After `\)\.render` in the `createRoot` pattern: `\s*\(\s*<` then the
lazy group 2.  Returns (rest of group 1, app group, suffix group). -/
def r12Cont (t : L) : Option (L × L × L) :=
  match stripPre ['('] (dropWs t) with
  | none => none
  | some r =>
    match stripPre ['<'] (dropWs r) with
    | none => none
    | some r2 =>
      match scanG2 attR12End r2 with
      | none => none
      | some (app, sfx, _) =>
        some (takeWs t ++ (['('] ++ (takeWs r ++ ['<'])), app, sfx)

def r12Try (t : L) : Option (L × L × L) :=
  match stripPre (strL ").render") t with
  | none => none
  | some r =>
    match r12Cont r with
    | none => none
    | some (contTxt, app, sfx) => some (strL ").render" ++ contTxt, app, sfx)

/-- The backtracking scan of `createRoot.*?\)\.render...`: try each
occurrence of ").render" (within the line) until the continuation
matches. -/
def r12Outer : L → Option (L × L × L)
  | [] => none
  | c :: t' =>
    match r12Try (c :: t') with
    | some out => some out
    | none =>
      if isLineTerm c then none
      else (r12Outer t').map (fun p => (c :: p.1, p.2.1, p.2.2))

/-- Attempt of the `createRoot` pattern. -/
def attCreateRoot (s : L) : Option (L × L × L) :=
  match stripPre (strL "createRoot") s with
  | none => none
  | some r =>
    match r12Outer r with
    | none => none
    | some (g1tail, app, sfx) => some (strL "createRoot" ++ g1tail, app, sfx)

def matchCreateRoot (c : L) : Option (L × L × L) :=
  (scanFirst attCreateRoot c).map (fun p => p.2)

/-- `ReactFramework.updateEntryPoint` on file content:
(content after the call, wrote, warned). -/
def reactUpdateEntryPoint (content : L) : L × Bool × Bool :=
  if occursIn (strL "SolanaProvider") content then (content, false, false)
  else
    let c1 := insertAfterImports true reactImportMid reactImportTop content
    match (match matchReactRender c1 with
           | some g => some g
           | none => matchCreateRoot c1) with
    | some (pfx, app, sfx) =>
      (jsReplaceStr c1 (pfx ++ (app ++ sfx))
        (pfx ++ (strL "<SolanaProvider>\n  " ++ (app ++ (strL "\n</SolanaProvider>" ++ sfx)))),
        true, false)
    | none => (content, false, true)

theorem reactUpdateEntryPoint_guard (c : L)
    (h : occursIn (strL "SolanaProvider") c = true) :
    reactUpdateEntryPoint c = (c, false, false) := by
  unfold reactUpdateEntryPoint
  rw [if_pos h]

/-- The React entry-point patcher never writes on a second application and
its content is idempotent: a write leaves "SolanaProvider" in the file (in
the wrap markup, surviving `$`-substitution), so the guard fires next
time; the guard and warn paths leave the content untouched. -/
theorem reactUpdateEntryPoint_idem (F : L) :
    (reactUpdateEntryPoint ((reactUpdateEntryPoint F).1)).1 = (reactUpdateEntryPoint F).1
    ∧ (reactUpdateEntryPoint ((reactUpdateEntryPoint F).1)).2.1 = false := by
  by_cases hg : occursIn (strL "SolanaProvider") F = true
  · have h1 := reactUpdateEntryPoint_guard F hg
    constructor <;> simp [h1, reactUpdateEntryPoint_guard F hg]
  · have hc1 : occursIn (strL "SolanaProvider")
        (insertAfterImports true reactImportMid reactImportTop F) = true :=
      insertAfterImports_token _ _ _ _ _ (by decide) (by decide)
    cases hm : (match matchReactRender (insertAfterImports true reactImportMid reactImportTop F) with
           | some g => some g
           | none => matchCreateRoot (insertAfterImports true reactImportMid reactImportTop F)) with
    | none =>
      have h1 : reactUpdateEntryPoint F = (F, false, true) := by
        unfold reactUpdateEntryPoint
        rw [if_neg hg]
        dsimp only
        rw [hm]
      constructor <;> simp [h1, reactUpdateEntryPoint_guard, hg]
    | some g =>
      obtain ⟨pfx, app, sfx⟩ := g
      have h1 : reactUpdateEntryPoint F =
          (jsReplaceStr (insertAfterImports true reactImportMid reactImportTop F)
            (pfx ++ (app ++ sfx))
            (pfx ++ (strL "<SolanaProvider>\n  " ++ (app ++ (strL "\n</SolanaProvider>" ++ sfx)))),
            true, false) := by
        unfold reactUpdateEntryPoint
        rw [if_neg hg]
        dsimp only
        rw [hm]
      have htok : occursIn (strL "SolanaProvider") (reactUpdateEntryPoint F).1 = true := by
        rw [h1]
        apply jsReplaceStr_keeps _ _ _ _ (by decide) (by decide) hc1
        exact occursIn_appendLeft _ pfx _
          (occursIn_appendRight _ (strL "<SolanaProvider>\n  ") _ (by decide))
      constructor <;> simp [reactUpdateEntryPoint_guard _ htok]

/- ## NextjsFramework.updatePagesRouterEntryPoint (_app wrap)

Guarded by "SolanaProvider"; inserts the provider import after the import
section, wraps the Component via
`/(\s*return\s*\(\s*)(<Component\s*{.*?}\s*\/>)(\s*\))/s`, and on anchor
failure warns and returns without writing. -/

def pagesImportMid : L := strL "\nimport \x7b SolanaProvider \x7d from \x27../solana/wallet\x27;\n"

def pagesImportTop : L := strL "import \x7b SolanaProvider \x7d from \x27../solana/wallet\x27;\n\n"

/-- Attempt of `\}\s*\/>` followed by the `(\s*\))` group: returns
(group-2 closer text, group-3 text, rest). -/
def attCompClose (t : L) : Option (L × L × L) :=
  match stripPre ['\x7d'] t with
  | none => none
  | some r =>
    match stripPre (strL "/>") (dropWs r) with
    | none => none
    | some r2 =>
      match stripPre [')'] (dropWs r2) with
      | none => none
      | some r3 =>
        some ('\x7d' :: (takeWs r ++ strL "/>"), takeWs r2 ++ [')'], r3)

/-- Attempt of the `_app` Component pattern: returns
(prefix group, component group, suffix group). -/
def attPagesComponent (s : L) : Option (L × L × L) :=
  match stripPre (strL "return") (dropWs s) with
  | none => none
  | some r1 =>
    match stripPre ['('] (dropWs r1) with
    | none => none
    | some r2 =>
      match stripPre (strL "<Component") (dropWs r2) with
      | none => none
      | some r3 =>
        match stripPre ['\x7b'] (dropWs r3) with
        | none => none
        | some r4 =>
          match scanFirst attCompClose r4 with
          | none => none
          | some (inner, closer, g3, _) =>
            some (takeWs s ++ (strL "return" ++ (takeWs r1 ++ (['('] ++ takeWs r2))),
              strL "<Component" ++ (takeWs r3 ++ ('\x7b' :: (inner ++ closer))), g3)

def matchPagesComponent (c : L) : Option (L × L × L) :=
  (scanFirst attPagesComponent c).map (fun p => p.2)

/-- `updatePagesRouterEntryPoint` on existing `_app` file content:
(content after the call, wrote, warned). -/
def pagesUpdateEntryPoint (content : L) : L × Bool × Bool :=
  if occursIn (strL "SolanaProvider") content then (content, false, false)
  else
    let c1 := insertAfterImports true pagesImportMid pagesImportTop content
    match matchPagesComponent c1 with
    | some (pfx, comp, sfx) =>
      (jsReplaceStr c1 (pfx ++ (comp ++ sfx))
        (pfx ++ (strL "<SolanaProvider>\n      " ++ (comp ++ (strL "\n    </SolanaProvider>" ++ sfx)))),
        true, false)
    | none => (content, false, true)

theorem pagesUpdateEntryPoint_guard (c : L)
    (h : occursIn (strL "SolanaProvider") c = true) :
    pagesUpdateEntryPoint c = (c, false, false) := by
  unfold pagesUpdateEntryPoint
  rw [if_pos h]

/-- The Pages Router patcher is content-idempotent and never writes on a
second application. -/
theorem pagesUpdateEntryPoint_idem (F : L) :
    (pagesUpdateEntryPoint ((pagesUpdateEntryPoint F).1)).1 = (pagesUpdateEntryPoint F).1
    ∧ (pagesUpdateEntryPoint ((pagesUpdateEntryPoint F).1)).2.1 = false := by
  by_cases hg : occursIn (strL "SolanaProvider") F = true
  · have h1 := pagesUpdateEntryPoint_guard F hg
    constructor <;> simp [h1, pagesUpdateEntryPoint_guard F hg]
  · have hc1 : occursIn (strL "SolanaProvider")
        (insertAfterImports true pagesImportMid pagesImportTop F) = true :=
      insertAfterImports_token _ _ _ _ _ (by decide) (by decide)
    cases hm : matchPagesComponent (insertAfterImports true pagesImportMid pagesImportTop F) with
    | none =>
      have h1 : pagesUpdateEntryPoint F = (F, false, true) := by
        unfold pagesUpdateEntryPoint
        rw [if_neg hg]
        dsimp only
        rw [hm]
      constructor <;> simp [h1, pagesUpdateEntryPoint_guard, hg]
    | some g =>
      obtain ⟨pfx, comp, sfx⟩ := g
      have h1 : pagesUpdateEntryPoint F =
          (jsReplaceStr (insertAfterImports true pagesImportMid pagesImportTop F)
            (pfx ++ (comp ++ sfx))
            (pfx ++ (strL "<SolanaProvider>\n      " ++ (comp ++ (strL "\n    </SolanaProvider>" ++ sfx)))),
            true, false) := by
        unfold pagesUpdateEntryPoint
        rw [if_neg hg]
        dsimp only
        rw [hm]
      have htok : occursIn (strL "SolanaProvider") (pagesUpdateEntryPoint F).1 = true := by
        rw [h1]
        apply jsReplaceStr_keeps _ _ _ _ (by decide) (by decide) hc1
        exact occursIn_appendLeft _ pfx _
          (occursIn_appendRight _ (strL "<SolanaProvider>\n      ") _ (by decide))
      constructor <;> simp [pagesUpdateEntryPoint_guard _ htok]

/- ## NextjsFramework.updateAppRouterEntryPoint (App Router layout)

Its body begins (line 406) with `if (context.config.useAppKit)`.  Every
TemplateContext constructed in the code base (nextjs/index.ts line 23,
vue/index.ts lines 23 and 355, template-engine.ts line 193, and the
ClientWalletProvider context) carries exactly the keys projectInfo,
solanaConfig, typescriptExtension, javascriptExtension and (sometimes)
isAppRouter — never a "config" key.  So `context.config` is `undefined`,
reading `.useAppKit` from it throws a TypeError before any pattern is
tried, and the surrounding catch logs the error without rethrowing: the
layout file is never modified on any call path.  The wrap logic below
line 406 is dead code as invoked, which is why the function is modeled on
the contexts it actually receives. -/

def appRouterCtx : JSValue :=
  JSValue.vObj
    [(strL "projectInfo", JSValue.vObj []),
     (strL "solanaConfig", JSValue.vObj []),
     (strL "typescriptExtension", JSValue.vStr (strL "tsx")),
     (strL "javascriptExtension", JSValue.vStr (strL "ts")),
     (strL "isAppRouter", JSValue.vBool true)]

/-- `updateAppRouterEntryPoint` as invoked: the `context.config.useAppKit`
access throws (config is `undefined` on every constructed context) and the
catch leaves the file untouched.  The `some` branch is unreachable for
`appRouterCtx`. -/
def updateAppRouterEntryPoint (content : L) : L × Bool :=
  match getProp appRouterCtx (strL "config") with
  | none => (content, false)
  | some _ => (content, false)

theorem updateAppRouterEntryPoint_noop (content : L) :
    updateAppRouterEntryPoint content = (content, false) := by
  unfold updateAppRouterEntryPoint
  rfl

/-- C1 counterexample: on a config mentioning transpilePackages only in a
comment, the first run writes (adds only the webpack block, which carries
no marker token), and the second run is NOT detected by the marker-token
guard: it runs the full pipeline and writes again (the same bytes).  So
"the second application is detected by the marker-token guard and performs
no write" fails for the Next.js config updater. -/
theorem claim_C1_counterexample :
    (updateNextConfig nextCfgC1).2 = true
    ∧ (updateNextConfig nextCfgC1).1 ≠ nextCfgC1
    ∧ (updateNextConfig (updateNextConfig nextCfgC1).1).2 = true
    ∧ (updateNextConfig (updateNextConfig nextCfgC1).1).1 = (updateNextConfig nextCfgC1).1 := by
  refine ⟨?_, ?_, ?_, ?_⟩ <;> decide

/-- C1 amended: every patcher is idempotent on content.  The Pages Router,
React and Vue patchers never write on a second application (for Vue the
guard always fires; for the other two the guard fires after any write and
the warn path never writes); the App Router patcher never writes at all as
invoked (its config lookup throws before patching).  The Next.js config
updater is idempotent on content, but its second application is not always
guard-detected (see the counterexample): it may redo the work and rewrite
identical bytes. -/
theorem claim_C1_amended_idempotence :
    (∀ F : L, (updateNextConfig (updateNextConfig F).1).1 = (updateNextConfig F).1)
    ∧ (∀ F : L, (pagesUpdateEntryPoint ((pagesUpdateEntryPoint F).1)).1 = (pagesUpdateEntryPoint F).1
        ∧ (pagesUpdateEntryPoint ((pagesUpdateEntryPoint F).1)).2.1 = false)
    ∧ (∀ F : L, (reactUpdateEntryPoint ((reactUpdateEntryPoint F).1)).1 = (reactUpdateEntryPoint F).1
        ∧ (reactUpdateEntryPoint ((reactUpdateEntryPoint F).1)).2.1 = false)
    ∧ (∀ F : L, vueUpdateMainFile ((vueUpdateMainFile F).1) = ((vueUpdateMainFile F).1, false, false))
    ∧ (∀ F : L, updateAppRouterEntryPoint F = (F, false)) :=
  ⟨updateNextConfig_content_idem, pagesUpdateEntryPoint_idem, reactUpdateEntryPoint_idem,
   vueUpdateMainFile_idem, updateAppRouterEntryPoint_noop⟩

theorem attR11End_sound (t sfx rest : L) (h : attR11End t = some (sfx, rest)) :
    t = sfx ++ rest := by
  unfold attR11End at h
  cases h1 : stripPre ['>'] (slashPart (dropWs t)).2 with
  | none => rw [h1] at h; exact Option.noConfusion h
  | some r =>
  rw [h1] at h; dsimp only at h
  cases h2 : stripPre [','] (dropWs r) with
  | none => rw [h2] at h; exact Option.noConfusion h
  | some r2 =>
  rw [h2] at h; dsimp only at h
  cases h3 : stripPre (strL "document.getElementById") (dropWs r2) with
  | none => rw [h3] at h; exact Option.noConfusion h
  | some r3 =>
  rw [h3] at h; dsimp only at h
  have hpair := Option.some.inj h
  rw [Prod.mk.injEq] at hpair
  obtain ⟨hsfx, hrest⟩ := hpair
  have hs : t = takeWs t ++ ((slashPart (dropWs t)).1 ++ (slashPart (dropWs t)).2) := by
    rw [← slashPart_sound (dropWs t), takeWs_append_dropWs]
  rw [(stripPre_iff _ _ _).1 h1] at hs
  rw [show (['>'] ++ r : L) = ['>'] ++ (takeWs r ++ dropWs r) by rw [takeWs_append_dropWs],
    (stripPre_iff _ _ _).1 h2] at hs
  rw [show ([','] ++ r2 : L) = [','] ++ (takeWs r2 ++ dropWs r2) by rw [takeWs_append_dropWs],
    (stripPre_iff _ _ _).1 h3] at hs
  rw [← hsfx, ← hrest]
  conv_lhs => rw [hs]
  simp

theorem attR12End_sound (t sfx rest : L) (h : attR12End t = some (sfx, rest)) :
    t = sfx ++ rest := by
  unfold attR12End at h
  cases h1 : stripPre ['>'] (slashPart (dropWs t)).2 with
  | none => rw [h1] at h; exact Option.noConfusion h
  | some r =>
  rw [h1] at h; dsimp only at h
  cases h2 : stripPre [')'] (dropWs r) with
  | none => rw [h2] at h; exact Option.noConfusion h
  | some r2 =>
  rw [h2] at h; dsimp only at h
  have hpair := Option.some.inj h
  rw [Prod.mk.injEq] at hpair
  obtain ⟨hsfx, hrest⟩ := hpair
  have hs : t = takeWs t ++ ((slashPart (dropWs t)).1 ++ (slashPart (dropWs t)).2) := by
    rw [← slashPart_sound (dropWs t), takeWs_append_dropWs]
  rw [(stripPre_iff _ _ _).1 h1] at hs
  rw [show (['>'] ++ r : L) = ['>'] ++ (takeWs r ++ dropWs r) by rw [takeWs_append_dropWs],
    (stripPre_iff _ _ _).1 h2] at hs
  rw [← hsfx, ← hrest]
  conv_lhs => rw [hs]
  simp

theorem scanG2_sound (attEnd : L → Option (L × L))
    (hsnd : ∀ t sfx rest, attEnd t = some (sfx, rest) → t = sfx ++ rest) :
    ∀ t app sfx rest, scanG2 attEnd t = some (app, sfx, rest) → t = app ++ (sfx ++ rest) := by
  intro t
  induction t with
  | nil =>
    intro app sfx rest h
    rw [scanG2] at h
    cases he : attEnd [] with
    | none => rw [he] at h; exact Option.noConfusion h
    | some p =>
      obtain ⟨s0, r0⟩ := p
      rw [he] at h; dsimp only at h
      have hpair := Option.some.inj h
      rw [Prod.mk.injEq, Prod.mk.injEq] at hpair
      obtain ⟨ha, hb, hc⟩ := hpair
      rw [← ha, List.nil_append, ← hb, ← hc]
      exact hsnd [] s0 r0 he
  | cons c t' ih =>
    intro app sfx rest h
    rw [scanG2] at h
    cases he : attEnd (c :: t') with
    | some p =>
      obtain ⟨s0, r0⟩ := p
      rw [he] at h; dsimp only at h
      have hpair := Option.some.inj h
      rw [Prod.mk.injEq, Prod.mk.injEq] at hpair
      obtain ⟨ha, hb, hc⟩ := hpair
      rw [← ha, List.nil_append, ← hb, ← hc]
      exact hsnd _ s0 r0 he
    | none =>
      rw [he] at h; dsimp only at h
      split at h
      · exact Option.noConfusion h
      · cases hg : scanG2 attEnd t' with
        | none => rw [hg] at h; exact Option.noConfusion h
        | some p =>
          rw [hg] at h
          dsimp only [Option.map] at h
          have hpair := Option.some.inj h
          rw [Prod.mk.injEq, Prod.mk.injEq] at hpair
          obtain ⟨ha, hb, hc⟩ := hpair
          rw [← ha, ← hb, ← hc]
          have := ih p.1 p.2.1 p.2.2 (by rw [hg])
          rw [List.cons_append, ← this]

theorem attReactRender_sound (s pfx app sfx : L)
    (h : attReactRender s = some (pfx, app, sfx)) :
    ∃ rest, s = (pfx ++ (app ++ sfx)) ++ rest := by
  unfold attReactRender at h
  cases h1 : stripPre (strL "ReactDOM.render") s with
  | none => rw [h1] at h; exact Option.noConfusion h
  | some r1 =>
  rw [h1] at h; dsimp only at h
  cases h2 : stripPre ['('] (dropWs r1) with
  | none => rw [h2] at h; exact Option.noConfusion h
  | some r2 =>
  rw [h2] at h; dsimp only at h
  cases h3 : stripPre ['<'] (dropWs r2) with
  | none => rw [h3] at h; exact Option.noConfusion h
  | some r3 =>
  rw [h3] at h; dsimp only at h
  cases h4 : scanG2 attR11End r3 with
  | none => rw [h4] at h; exact Option.noConfusion h
  | some p =>
  obtain ⟨app0, sfx0, g2rest⟩ := p
  rw [h4] at h; dsimp only at h
  have hpair := Option.some.inj h
  rw [Prod.mk.injEq, Prod.mk.injEq] at hpair
  obtain ⟨ha, hb, hc⟩ := hpair
  refine ⟨g2rest, ?_⟩
  have hs : s = strL "ReactDOM.render" ++ r1 := (stripPre_iff _ _ _).1 h1
  rw [← takeWs_append_dropWs r1, (stripPre_iff _ _ _).1 h2] at hs
  rw [← takeWs_append_dropWs r2, (stripPre_iff _ _ _).1 h3] at hs
  rw [scanG2_sound attR11End attR11End_sound r3 app0 sfx0 g2rest h4] at hs
  rw [← ha, ← hb, ← hc, hs]
  simp

theorem r12Cont_sound (t contTxt app sfx : L)
    (h : r12Cont t = some (contTxt, app, sfx)) :
    ∃ rest, t = (contTxt ++ (app ++ sfx)) ++ rest := by
  unfold r12Cont at h
  cases h1 : stripPre ['('] (dropWs t) with
  | none => rw [h1] at h; exact Option.noConfusion h
  | some r =>
  rw [h1] at h; dsimp only at h
  cases h2 : stripPre ['<'] (dropWs r) with
  | none => rw [h2] at h; exact Option.noConfusion h
  | some r2 =>
  rw [h2] at h; dsimp only at h
  cases h3 : scanG2 attR12End r2 with
  | none => rw [h3] at h; exact Option.noConfusion h
  | some p =>
  obtain ⟨app0, sfx0, g2rest⟩ := p
  rw [h3] at h; dsimp only at h
  have hpair := Option.some.inj h
  rw [Prod.mk.injEq, Prod.mk.injEq] at hpair
  obtain ⟨ha, hb, hc⟩ := hpair
  refine ⟨g2rest, ?_⟩
  have hs : t = takeWs t ++ dropWs t := (takeWs_append_dropWs t).symm
  rw [(stripPre_iff _ _ _).1 h1] at hs
  rw [← takeWs_append_dropWs r, (stripPre_iff _ _ _).1 h2] at hs
  rw [scanG2_sound attR12End attR12End_sound r2 app0 sfx0 g2rest h3] at hs
  rw [← ha, ← hb, ← hc]
  conv_lhs => rw [hs]
  simp

theorem r12Try_sound (t g1tail app sfx : L)
    (h : r12Try t = some (g1tail, app, sfx)) :
    ∃ rest, t = (g1tail ++ (app ++ sfx)) ++ rest := by
  unfold r12Try at h
  cases h1 : stripPre (strL ").render") t with
  | none => rw [h1] at h; exact Option.noConfusion h
  | some r =>
  rw [h1] at h; dsimp only at h
  cases h2 : r12Cont r with
  | none => rw [h2] at h; exact Option.noConfusion h
  | some p =>
  obtain ⟨contTxt, app0, sfx0⟩ := p
  rw [h2] at h; dsimp only at h
  have hpair := Option.some.inj h
  rw [Prod.mk.injEq, Prod.mk.injEq] at hpair
  obtain ⟨ha, hb, hc⟩ := hpair
  obtain ⟨rest, hr⟩ := r12Cont_sound r contTxt app0 sfx0 h2
  refine ⟨rest, ?_⟩
  have hs : t = strL ").render" ++ r := (stripPre_iff _ _ _).1 h1
  rw [hr] at hs
  rw [← ha, ← hb, ← hc, hs]
  simp

theorem r12Outer_sound : ∀ t g1tail app sfx : L,
    r12Outer t = some (g1tail, app, sfx) →
    ∃ rest, t = (g1tail ++ (app ++ sfx)) ++ rest := by
  intro t
  induction t with
  | nil => intro g1tail app sfx h; exact Option.noConfusion h
  | cons c t' ih =>
    intro g1tail app sfx h
    rw [r12Outer] at h
    cases ht : r12Try (c :: t') with
    | some out =>
      rw [ht] at h; dsimp only at h
      have := Option.some.inj h
      subst this
      exact r12Try_sound _ _ _ _ ht
    | none =>
      rw [ht] at h; dsimp only at h
      split at h
      · exact Option.noConfusion h
      · cases hg : r12Outer t' with
        | none => rw [hg] at h; exact Option.noConfusion h
        | some p =>
          rw [hg] at h
          dsimp only [Option.map] at h
          have hpair := Option.some.inj h
          rw [Prod.mk.injEq, Prod.mk.injEq] at hpair
          obtain ⟨ha, hb, hc⟩ := hpair
          obtain ⟨rest, hr⟩ := ih p.1 p.2.1 p.2.2 (by rw [hg])
          refine ⟨rest, ?_⟩
          rw [← ha, ← hb, ← hc, hr]
          simp

theorem attCreateRoot_sound (s pfx app sfx : L)
    (h : attCreateRoot s = some (pfx, app, sfx)) :
    ∃ rest, s = (pfx ++ (app ++ sfx)) ++ rest := by
  unfold attCreateRoot at h
  cases h1 : stripPre (strL "createRoot") s with
  | none => rw [h1] at h; exact Option.noConfusion h
  | some r =>
  rw [h1] at h; dsimp only at h
  cases h2 : r12Outer r with
  | none => rw [h2] at h; exact Option.noConfusion h
  | some p =>
  obtain ⟨g1tail, app0, sfx0⟩ := p
  rw [h2] at h; dsimp only at h
  have hpair := Option.some.inj h
  rw [Prod.mk.injEq, Prod.mk.injEq] at hpair
  obtain ⟨ha, hb, hc⟩ := hpair
  obtain ⟨rest, hr⟩ := r12Outer_sound r g1tail app0 sfx0 h2
  refine ⟨rest, ?_⟩
  have hs : s = strL "createRoot" ++ r := (stripPre_iff _ _ _).1 h1
  rw [hr] at hs
  rw [← ha, ← hb, ← hc, hs]
  simp

theorem dsub_id (pat pre post m : L) (h : noDollar m = true) :
    dollarSub pat pre post m = m := by
  have h1 := dsub_front pat pre post m [] h
  rw [List.append_nil] at h1
  rw [h1, show dollarSub pat pre post [] = [] from rfl, List.append_nil]

theorem jsReplaceStr_of_occurs (h pat repl : L) (hocc : occursIn pat h = true) :
    ∃ a b, h = a ++ pat ++ b ∧ jsReplaceStr h pat repl = a ++ dollarSub pat a b repl ++ b := by
  unfold jsReplaceStr
  cases hf : findFirst pat h with
  | none =>
    exfalso
    obtain ⟨a, b, hab⟩ := (occursIn_iff _ _).1 hocc
    exact findFirst_none pat h hf a b hab
  | some p =>
    exact ⟨p.1, p.2, findFirst_sound pat h p.1 p.2 (by rw [hf]), rfl⟩

/-- C4 counterexample input: the captured root component carries a literal
`$$`, which the `$`-substitution of the string replacement collapses. -/
def reactEntryC4 : L := strL "import React from \x27react\x27;\nReactDOM.render(<App label=\"$$\" />, document.getElementById(\x27root\x27));\n"

/-- C4 counterexample: the children-wrapping applier (React entry point)
finds its anchor and writes, but the captured inner text
`App label="$$"` does not appear verbatim in the output: the `$$` inside
the template-literal replacement is collapsed to `$` by
`String.prototype.replace`. -/
theorem claim_C4_counterexample :
    (reactUpdateEntryPoint reactEntryC4).2.1 = true
    ∧ occursIn (strL "App label=\"$$\"") reactEntryC4 = true
    ∧ occursIn (strL "App label=\"$$\"") (reactUpdateEntryPoint reactEntryC4).1 = false
    ∧ occursIn (strL "<SolanaProvider>\n  App label=\"$\"\n</SolanaProvider>")
        (reactUpdateEntryPoint reactEntryC4).1 = true := by
  refine ⟨?_, ?_, ?_, ?_⟩ <;> decide

/-- C4 amended: when the render anchor matches and none of the captured
groups contains a dollar character, the wrap is exact: the output is the
content with the matched span rewritten to
prefix ++ open-tag ++ inner ++ close-tag ++ suffix, the captured inner
text verbatim inside it. -/
theorem claim_C4_amended_wrap_verbatim (F pfx app sfx : L)
    (hg : occursIn (strL "SolanaProvider") F = false)
    (hm : (match matchReactRender (insertAfterImports true reactImportMid reactImportTop F) with
           | some g => some g
           | none => matchCreateRoot (insertAfterImports true reactImportMid reactImportTop F))
        = some (pfx, app, sfx))
    (hnd : noDollar (pfx ++ (app ++ sfx)) = true) :
    ∃ a b,
      insertAfterImports true reactImportMid reactImportTop F
        = a ++ ((pfx ++ (app ++ sfx)) ++ b)
      ∧ (reactUpdateEntryPoint F).1
        = a ++ ((pfx ++ (strL "<SolanaProvider>\n  "
            ++ (app ++ (strL "\n</SolanaProvider>" ++ sfx)))) ++ b)
      ∧ occursIn app (reactUpdateEntryPoint F).1 = true := by
  have hocc : occursIn (pfx ++ (app ++ sfx))
      (insertAfterImports true reactImportMid reactImportTop F) = true := by
    cases hm1 : matchReactRender (insertAfterImports true reactImportMid reactImportTop F) with
    | some g =>
      rw [hm1] at hm
      have hg1 : g = (pfx, app, sfx) := Option.some.inj hm
      subst hg1
      obtain ⟨x, hsf⟩ := Option.map_eq_some'.1 hm1
      obtain ⟨hscan, hx2⟩ := hsf
      obtain ⟨suf, hsplit, hatt⟩ := scanFirst_sound attReactRender _ x.1 x.2 hscan
      obtain ⟨rest, hrest⟩ := attReactRender_sound suf pfx app sfx (by rw [hx2] at hatt; exact hatt)
      rw [hsplit, hrest]
      exact (occursIn_iff _ _).2 ⟨x.1, rest, by simp⟩
    | none =>
      rw [hm1] at hm
      obtain ⟨x, hsf⟩ := Option.map_eq_some'.1 hm
      obtain ⟨hscan, hx2⟩ := hsf
      obtain ⟨suf, hsplit, hatt⟩ := scanFirst_sound attCreateRoot _ x.1 x.2 hscan
      obtain ⟨rest, hrest⟩ := attCreateRoot_sound suf pfx app sfx (by rw [hx2] at hatt; exact hatt)
      rw [hsplit, hrest]
      exact (occursIn_iff _ _).2 ⟨x.1, rest, by simp⟩
  have h1 : (reactUpdateEntryPoint F).1 =
      jsReplaceStr (insertAfterImports true reactImportMid reactImportTop F)
        (pfx ++ (app ++ sfx))
        (pfx ++ (strL "<SolanaProvider>\n  " ++ (app ++ (strL "\n</SolanaProvider>" ++ sfx)))) := by
    unfold reactUpdateEntryPoint
    rw [if_neg (by rw [hg]; simp)]
    dsimp only
    rw [hm]
  obtain ⟨a, b, hab, hres⟩ := jsReplaceStr_of_occurs _ (pfx ++ (app ++ sfx))
    (pfx ++ (strL "<SolanaProvider>\n  " ++ (app ++ (strL "\n</SolanaProvider>" ++ sfx)))) hocc
  have hndw : noDollar (pfx ++ (strL "<SolanaProvider>\n  "
      ++ (app ++ (strL "\n</SolanaProvider>" ++ sfx)))) = true := by
    simp only [noDollar, List.all_append, Bool.and_eq_true] at hnd ⊢
    exact ⟨hnd.1, by decide, hnd.2.1, by decide, hnd.2.2⟩
  refine ⟨a, b, by rw [hab]; simp, ?_, ?_⟩
  · rw [h1, hres, dsub_id _ _ _ _ hndw]
    simp
  · rw [h1, hres, dsub_id _ _ _ _ hndw]
    exact occursIn_appendRight _ _ b (occursIn_appendLeft _ a _
      (occursIn_appendLeft _ pfx _ (occursIn_appendLeft _ _ _
        (occursIn_appendRight _ app _ ((occursIn_iff _ _).2 ⟨[], [], by simp⟩)))))

/-- C4 amended witness: a dollar-free entry point is wrapped exactly. -/
theorem claim_C4_amended_witness :
    ∃ a b,
      insertAfterImports true reactImportMid reactImportTop
          (strL "import React from \x27react\x27;\nReactDOM.render(<App />, document.getElementById(\x27root\x27));\n")
        = a ++ ((strL "ReactDOM.render(<" ++ (strL "App" ++ strL " />, document.getElementById")) ++ b)
      ∧ (reactUpdateEntryPoint
          (strL "import React from \x27react\x27;\nReactDOM.render(<App />, document.getElementById(\x27root\x27));\n")).1
        = a ++ ((strL "ReactDOM.render(<" ++ (strL "<SolanaProvider>\n  "
            ++ (strL "App" ++ (strL "\n</SolanaProvider>" ++ strL " />, document.getElementById")))) ++ b)
      ∧ occursIn (strL "App")
          (reactUpdateEntryPoint
            (strL "import React from \x27react\x27;\nReactDOM.render(<App />, document.getElementById(\x27root\x27));\n")).1 = true :=
  claim_C4_amended_wrap_verbatim
    (strL "import React from \x27react\x27;\nReactDOM.render(<App />, document.getElementById(\x27root\x27));\n")
    (strL "ReactDOM.render(<") (strL "App") (strL " />, document.getElementById")
    (by decide) (by decide) (by decide)

/-- `findLast` returns the rightmost occurrence. -/
theorem findLast_last (pat : L) : ∀ h a b : L, findLast pat h = some (a, b) →
    ∀ a' b' : L, h = a' ++ pat ++ b' → a'.length ≤ a.length := by
  intro h
  induction h with
  | nil =>
    intro a b hf a' b' hab
    have h2 : a' ++ (pat ++ b') = [] := by rw [← List.append_assoc]; exact hab.symm
    rw [(List.append_eq_nil.1 h2).1]
    exact Nat.zero_le _
  | cons c t ih =>
    intro a b hf a' b' hab
    rw [findLast] at hf
    cases hfl : findLast pat t with
    | some p =>
      rw [hfl] at hf
      dsimp only at hf
      have hpair := Option.some.inj hf
      rw [Prod.mk.injEq] at hpair
      obtain ⟨ha, hb⟩ := hpair
      cases a' with
      | nil => rw [← ha]; exact Nat.zero_le _
      | cons a0 a'' =>
        have ht : t = a'' ++ pat ++ b' := by
          have := hab
          simp only [List.cons_append] at this
          exact (List.cons.injEq .. ▸ this).2
        have := ih p.1 p.2 (by rw [hfl]) a'' b' ht
        rw [← ha]
        simpa using Nat.succ_le_succ this
    | none =>
      rw [hfl] at hf
      dsimp only at hf
      by_cases hpre : hasPre pat (c :: t) = true
      · rw [if_pos hpre] at hf
        have hpair := Option.some.inj hf
        rw [Prod.mk.injEq] at hpair
        obtain ⟨ha, hb⟩ := hpair
        cases a' with
        | nil => rw [← ha]
        | cons a0 a'' =>
          exfalso
          have ht : t = a'' ++ pat ++ b' := by
            have := hab
            simp only [List.cons_append] at this
            exact (List.cons.injEq .. ▸ this).2
          exact findLast_none pat t hfl a'' b' ht
      · rw [if_neg hpre] at hf
        exact Option.noConfusion hf

/-- C5 amended: the import anchor is the end of the LAST OCCURRENCE of the
text of the last matched import statement — which is immediately after
that import when its text does not recur later — and the start of the file
when no import statement matches. -/
theorem claim_C5_amended_anchor :
    (∀ (semi : Bool) (mid top content : L), importMatches semi content = [] →
      insertAfterImports semi mid top content = top ++ content)
    ∧ (∀ (semi : Bool) (mid top content m u v : L),
        (importMatches semi content).getLast? = some m →
        content = u ++ (m ++ v) →
        occursIn m ((m ++ v).drop 1) = false →
        insertAfterImports semi mid top content = u ++ (m ++ (mid ++ v))) := by
  constructor
  · intro semi mid top content h
    unfold insertAfterImports
    rw [h]
    rfl
  · intro semi mid top content m u v hgl hsplit hafter
    unfold insertAfterImports
    rw [hgl]
    dsimp only
    cases hfl : findLast m content with
    | none =>
      exfalso
      exact findLast_none m content hfl u v (by rw [hsplit]; simp)
    | some p =>
      obtain ⟨a, b⟩ := p
      dsimp only
      have hsound : content = a ++ m ++ b := findLast_sound m content a b hfl
      have hmax : u.length ≤ a.length :=
        findLast_last m content a b hfl u v (by rw [hsplit]; simp)
      have hEq : u ++ (m ++ v) = a ++ (m ++ b) := by
        rw [← hsplit, hsound, List.append_assoc]
      rcases List.append_eq_append_iff.1 hEq with ⟨w, haw, hmv⟩ | ⟨w, huw, hmb⟩
      · cases w with
        | nil =>
          rw [List.append_nil] at haw
          have hbv : b = v := by
            have h2 : m ++ v = m ++ b := by rw [hmv]; simp
            exact (List.append_cancel_left h2).symm
          rw [← haw, hbv]
        | cons x w' =>
          exfalso
          have hdrop : (m ++ v).drop 1 = w' ++ (m ++ b) := by
            rw [hmv]
            simp
          rw [hdrop] at hafter
          have : occursIn m (w' ++ (m ++ b)) = true :=
            (occursIn_iff _ _).2 ⟨w', b, by simp⟩
          rw [this] at hafter
          exact Bool.noConfusion hafter
      · have hw : w = [] := by
          have hlen : u.length = a.length + w.length := by
            rw [huw]; simp
          have : w.length = 0 := by omega
          exact List.length_eq_zero.1 this
        subst hw
        rw [List.append_nil] at huw
        have hbv : b = v := by
          rw [List.nil_append] at hmb
          exact (List.append_cancel_left hmb.symm).symm
        rw [huw, hbv]

/-- C5 amended witness: on the claim's own concrete scenario the anchor
falls immediately after the last import and the insertion produces exactly
the expected file. -/
theorem claim_C5_amended_anchor_witness :
    ((importMatches true (strL "import A from \x27a\x27;\nimport B from \x27b\x27;\nfunction f()\x7b\x7d")).getLast?
        = some (strL "import B from \x27b\x27;\n"))
    ∧ insertAfterImports true (strL "import C from \x27c\x27;\n") (strL "")
        (strL "import A from \x27a\x27;\nimport B from \x27b\x27;\nfunction f()\x7b\x7d")
      = strL "import A from \x27a\x27;\nimport B from \x27b\x27;\nimport C from \x27c\x27;\nfunction f()\x7b\x7d"
    ∧ (∀ (semi : Bool) (mid top content : L), importMatches semi content = [] →
        insertAfterImports semi mid top content = top ++ content) := by
  refine ⟨by decide, ?_, claim_C5_amended_anchor.1⟩
  have h := claim_C5_amended_anchor.2 true (strL "import C from \x27c\x27;\n") (strL "")
    (strL "import A from \x27a\x27;\nimport B from \x27b\x27;\nfunction f()\x7b\x7d")
    (strL "import B from \x27b\x27;\n") (strL "import A from \x27a\x27;\n")
    (strL "function f()\x7b\x7d") (by decide) (by decide) (by decide)
  rw [h]
  decide

/-- C5 counterexample input: the text of the only top-of-file import recurs
later inside a template literal. -/
def importC5bad : L := strL "import A;\nfoo(\x60import A;\n\x60);"

/-- C5 counterexample: the anchor is `lastIndexOf` of the last match's
TEXT, not the match position.  Here the only matched import is
"import A;\n" but its text recurs inside a template literal, so the
insertion lands inside the template literal instead of immediately after
the matched top-of-file import. -/
theorem claim_C5_counterexample :
    (importMatches true importC5bad = [strL "import A;\n"])
    ∧ insertAfterImports true (strL "import C from \x27c\x27;\n") (strL "") importC5bad
      = strL "import A;\nfoo(\x60import A;\nimport C from \x27c\x27;\n\x60);"
    ∧ insertAfterImports true (strL "import C from \x27c\x27;\n") (strL "") importC5bad
      ≠ strL "import A;\nimport C from \x27c\x27;\nfoo(\x60import A;\n\x60);" := by
  refine ⟨?_, ?_, ?_⟩ <;> decide
